import Mathlib

/-!
# Rivine `types/transactions.go`: identity model and short transaction IDs

A shallow embedding of the transaction identity code of
`src/types/transactions.go`.  Machine integers are natural numbers with an
explicit reduction modulo `2^64` (or `2^16`) wherever the Go operation can
wrap; a Go `panic` is the `error` case of `Except`.
-/

namespace Rivine

/-! ## Short transaction IDs -/

/-- Go `uint64` wrap-around. -/
def u64 (n : Nat) : Nat := n % 2 ^ 64

/-- Go `uint16` wrap-around. -/
def u16 (n : Nat) : Nat := n % 2 ^ 16

/-- Mask of the bits a block height may not use (bits 50..63). -/
def blockHeightOOBMask : Nat := 0xFFFC000000000000

/-- Amount of bits reserved for the transaction index. -/
def txShortIDBlockHeightShift : Nat := 14

/-- Mask of the bits a sequence index may not use (bits 14 and 15). -/
def txSeqIndexOOBMask : Nat := 0xC000

/-- Mask of the bits a sequence index may use (bits 0..13). -/
def txSeqIndexMaxMask : Nat := 0x3FFF

/-- A `TransactionShortID` is a `uint64`. -/
abbrev TransactionShortID := Nat

/-- `NewTransactionShortID(height BlockHeight, txSequenceID uint16)`:
both guards panic, otherwise the height is shifted (in `uint64`) and or-ed
with the masked sequence index. -/
def NewTransactionShortID (height txSequenceID : Nat) : Except String TransactionShortID :=
  if (height &&& blockHeightOOBMask) > 0 then
    .error "block height out of bounds"
  else if (txSequenceID &&& txSeqIndexOOBMask) > 0 then
    .error "transaction sequence ID out of bounds"
  else
    .ok (u64 (height <<< txShortIDBlockHeightShift) ||| u64 (txSequenceID &&& txSeqIndexMaxMask))

/-- `txsid.BlockHeight()`. -/
def TransactionShortID.BlockHeight (txsid : TransactionShortID) : Nat :=
  txsid >>> txShortIDBlockHeightShift

/-- `txsid.TransactionSequenceIndex()`. -/
def TransactionShortID.TransactionSequenceIndex (txsid : TransactionShortID) : Nat :=
  u16 (txsid &&& txSeqIndexMaxMask)

/-- Modelled from the spec: `encoding.EncUint64` is not part of the sources at
hand; the short ID is "serialized little-endian" in 8 bytes, least significant
byte first. -/
def EncUint64 (i : Nat) : List Nat :=
  [i % 256, i / 2 ^ 8 % 256, i / 2 ^ 16 % 256, i / 2 ^ 24 % 256,
   i / 2 ^ 32 % 256, i / 2 ^ 40 % 256, i / 2 ^ 48 % 256, i / 2 ^ 56 % 256]

/-- Modelled from the spec: `encoding.DecUint64` is not part of the sources at
hand; it reads the 8 bytes of its buffer as a little-endian `uint64` (a byte the
buffer lacks counts as zero; `UnmarshalSia` always passes 8). -/
def DecUint64 (b : List Nat) : Nat :=
  b.getD 0 0 + b.getD 1 0 * 2 ^ 8 + b.getD 2 0 * 2 ^ 16 + b.getD 3 0 * 2 ^ 24 +
  b.getD 4 0 * 2 ^ 32 + b.getD 5 0 * 2 ^ 40 + b.getD 6 0 * 2 ^ 48 + b.getD 7 0 * 2 ^ 56

/-- An `io.Writer` over a growing byte buffer: `Write` appends and does not fail. -/
def Writer.Write (w : List Nat) (b : List Nat) : List Nat × Option String :=
  (w ++ b, none)

/-- `txsid.MarshalSia(w)`: encodes and writes, returning the writer and the
error of the write. -/
def TransactionShortID.MarshalSia (txsid : TransactionShortID) (w : List Nat) :
    List Nat × Option String :=
  let b := EncUint64 (u64 txsid)
  Writer.Write w b

/-- An `io.Reader` over the remaining bytes of a buffer: `Read(b)` copies
`min (len b) (len r)` bytes over the front of `b`; reading from an exhausted
reader is `EOF`. Returns the buffer, the rest of the reader and the error. -/
def Reader.Read (r : List Nat) (b : List Nat) : List Nat × List Nat × Option String :=
  if r.isEmpty && !b.isEmpty then (b, r, some "EOF")
  else (r.take b.length ++ b.drop (min b.length r.length), r.drop b.length, none)

/-- `txsid.UnmarshalSia(r)`: one `Read` into a fresh 8-byte buffer, then decode.
Returns the decoded short ID and the rest of the reader. -/
def TransactionShortID.UnmarshalSia (r : List Nat) :
    Except String (TransactionShortID × List Nat) :=
  let b := List.replicate 8 0
  match Reader.Read r b with
  | (_, _, some err) => .error err
  | (b, r, none) => .ok (DecUint64 b, r)

/-- Byte-wise lexicographic "smaller than" on serialized forms (what
`bytes.Compare(a, b) < 0` decides). -/
def lexLess : List Nat → List Nat → Bool
  | [], [] => false
  | [], _ :: _ => true
  | _ :: _, [] => false
  | a :: as, b :: bs => if a < b then true else if b < a then false else lexLess as bs

/-! ## Specifiers -/

/-- Length of a `Specifier`. -/
def SpecifierLen : Nat := 16

/-- A `Specifier` is a `[SpecifierLen]byte`. -/
structure Specifier where
  bytes : List Nat
  len : bytes.length = SpecifierLen
  isByte : ∀ b ∈ bytes, b < 256

/-- The tag "miner payout". -/
def SpecifierMinerPayout : Specifier :=
  ⟨[109, 105, 110, 101, 114, 32, 112, 97, 121, 111, 117, 116, 0, 0, 0, 0], by decide, by decide⟩

/-- The tag "coin input". -/
def SpecifierCoinInput : Specifier :=
  ⟨[99, 111, 105, 110, 32, 105, 110, 112, 117, 116, 0, 0, 0, 0, 0, 0], by decide, by decide⟩

/-- The tag "coin output". -/
def SpecifierCoinOutput : Specifier :=
  ⟨[99, 111, 105, 110, 32, 111, 117, 116, 112, 117, 116, 0, 0, 0, 0, 0], by decide, by decide⟩

/-- The tag "blstake input". -/
def SpecifierBlockStakeInput : Specifier :=
  ⟨[98, 108, 115, 116, 97, 107, 101, 32, 105, 110, 112, 117, 116, 0, 0, 0], by decide, by decide⟩

/-- The tag "blstake output". -/
def SpecifierBlockStakeOutput : Specifier :=
  ⟨[98, 108, 115, 116, 97, 107, 101, 32, 111, 117, 116, 112, 117, 116, 0, 0], by decide, by decide⟩

/-- The tag "miner fee". -/
def SpecifierMinerFee : Specifier :=
  ⟨[109, 105, 110, 101, 114, 32, 102, 101, 101, 0, 0, 0, 0, 0, 0, 0], by decide, by decide⟩

/-- The loop `for i = range s { if s[i] == 0 { break } }` of `Specifier.String`,
over the indices still to visit: each iteration first assigns the index to `i`,
a zero byte leaves the loop, and after the last index `i` keeps its value. -/
def Specifier.stringLoop (s : List Nat) : List Nat → Nat → Nat
  | [], i => i
  | k :: rest, _ => if s.getD k 0 = 0 then k else Specifier.stringLoop s rest k

/-- `s.String()`: the bytes of `string(s[:i])` for the `i` the loop ends with
(`var i int` starts at zero). -/
def Specifier.String (s : Specifier) : List Nat :=
  s.bytes.take (Specifier.stringLoop s.bytes (List.range SpecifierLen) 0)

/-- A specifier without any zero byte: sixteen times the letter `a`. -/
def specifierAllA : Specifier :=
  ⟨List.replicate 16 97, by decide, by decide⟩

/-! ## Transactions -/

/-- Modelled from the spec: the type `Currency` is declared outside the sources
at hand; it is "an arbitrary-precision non-negative integer value". -/
structure Currency where
  i : Nat
deriving DecidableEq, Repr

/-- Modelled from the spec: `Currency.Add` is declared outside the sources at
hand; "additions/subtractions are exact, no overflow wraparound". -/
def Currency.Add (x y : Currency) : Currency := ⟨x.i + y.i⟩

/-- A `CoinInput`; the hash type `H` (`crypto.Hash`) and `UnlockConditions`
are declared elsewhere and stay parameters. -/
structure CoinInput (H UC : Type) where
  ParentID : H
  UnlockConditions : UC

/-- A `CoinOutput`; `UnlockHash` is declared elsewhere and stays a parameter. -/
structure CoinOutput (UH : Type) where
  Value : Currency
  UnlockHash : UH

/-- A `BlockStakeInput`. -/
structure BlockStakeInput (H UC : Type) where
  ParentID : H
  UnlockConditions : UC

/-- A `BlockStakeOutput`. -/
structure BlockStakeOutput (UH : Type) where
  Value : Currency
  UnlockHash : UH

/-- A `Transaction`; `TransactionSignature` is declared elsewhere and stays a
parameter. -/
structure Transaction (H UC UH Sig : Type) where
  CoinInputs : List (CoinInput H UC)
  CoinOutputs : List (CoinOutput UH)
  BlockStakeInputs : List (BlockStakeInput H UC)
  BlockStakeOutputs : List (BlockStakeOutput UH)
  MinerFees : List Currency
  ArbitraryData : List (List Nat)
  TransactionSignatures : List Sig

/-- What the packages `crypto` and `encoding` contribute and the sources at hand
do not show: the hash of a byte string and the serialization of each field. -/
structure Codec (H UC UH : Type) where
  HashBytes : List Nat → H
  CoinInputs : List (CoinInput H UC) → List Nat
  CoinOutputs : List (CoinOutput UH) → List Nat
  BlockStakeInputs : List (BlockStakeInput H UC) → List Nat
  BlockStakeOutputs : List (BlockStakeOutput UH) → List Nat
  MinerFees : List Currency → List Nat
  ArbitraryData : List (List Nat) → List Nat

/-- The values handed to `crypto.HashAll(objs ...interface{})` in this file. -/
inductive Obj (H UC UH : Type) where
  | specifier (s : Specifier)
  | coinInputs (v : List (CoinInput H UC))
  | coinOutputs (v : List (CoinOutput UH))
  | blockStakeInputs (v : List (BlockStakeInput H UC))
  | blockStakeOutputs (v : List (BlockStakeOutput UH))
  | minerFees (v : List Currency)
  | arbitraryData (v : List (List Nat))
  | uint64 (i : Nat)

/-- Modelled from the spec: `encoding.Marshal` is not part of the sources at
hand; a Specifier is "a fixed 16-byte tag prepended to hashed content", an index
is a `uint64` written like the short ID (`EncUint64`), and the fields have their
canonical serialization. -/
def Marshal {H UC UH : Type} (C : Codec H UC UH) : Obj H UC UH → List Nat
  | .specifier s => s.bytes
  | .coinInputs v => C.CoinInputs v
  | .coinOutputs v => C.CoinOutputs v
  | .blockStakeInputs v => C.BlockStakeInputs v
  | .blockStakeOutputs v => C.BlockStakeOutputs v
  | .minerFees v => C.MinerFees v
  | .arbitraryData v => C.ArbitraryData v
  | .uint64 i => EncUint64 (u64 i)

/-- Modelled from the spec: `encoding.MarshalAll` is not part of the sources at
hand; "every ID is `Hash(Specifier ++ canonical-serialization(fields))`", the
objects are serialized one after the other. -/
def MarshalAll {H UC UH : Type} (C : Codec H UC UH) : List (Obj H UC UH) → List Nat
  | [] => []
  | o :: os => Marshal C o ++ MarshalAll C os

/-- Modelled from the spec: `crypto.HashAll` is not part of the sources at hand;
it hashes the serialization of its arguments. -/
def HashAll {H UC UH : Type} (C : Codec H UC UH) (objs : List (Obj H UC UH)) : H :=
  C.HashBytes (MarshalAll C objs)

section
variable {H UC UH Sig : Type}

/-- The arguments `t.ID()` passes to `crypto.HashAll`. -/
def Transaction.IDObjs (t : Transaction H UC UH Sig) : List (Obj H UC UH) :=
  [.coinInputs t.CoinInputs, .coinOutputs t.CoinOutputs,
   .blockStakeInputs t.BlockStakeInputs, .blockStakeOutputs t.BlockStakeOutputs,
   .minerFees t.MinerFees, .arbitraryData t.ArbitraryData]

/-- `t.ID()`. -/
def Transaction.ID (C : Codec H UC UH) (t : Transaction H UC UH Sig) : H :=
  HashAll C t.IDObjs

/-- The arguments `t.CoinOutputID(i)` passes to `crypto.HashAll`. -/
def Transaction.CoinOutputIDObjs (t : Transaction H UC UH Sig) (i : Nat) : List (Obj H UC UH) :=
  [.specifier SpecifierCoinOutput,
   .coinInputs t.CoinInputs, .coinOutputs t.CoinOutputs,
   .blockStakeInputs t.BlockStakeInputs, .blockStakeOutputs t.BlockStakeOutputs,
   .minerFees t.MinerFees, .arbitraryData t.ArbitraryData,
   .uint64 i]

/-- `t.CoinOutputID(i)`. -/
def Transaction.CoinOutputID (C : Codec H UC UH) (t : Transaction H UC UH Sig) (i : Nat) : H :=
  HashAll C (t.CoinOutputIDObjs i)

/-- The arguments `t.BlockStakeOutputID(i)` passes to `crypto.HashAll`. -/
def Transaction.BlockStakeOutputIDObjs (t : Transaction H UC UH Sig) (i : Nat) :
    List (Obj H UC UH) :=
  [.specifier SpecifierBlockStakeOutput,
   .coinInputs t.CoinInputs, .coinOutputs t.CoinOutputs,
   .blockStakeInputs t.BlockStakeInputs, .blockStakeOutputs t.BlockStakeOutputs,
   .minerFees t.MinerFees, .arbitraryData t.ArbitraryData,
   .uint64 i]

/-- `t.BlockStakeOutputID(i)`. -/
def Transaction.BlockStakeOutputID (C : Codec H UC UH) (t : Transaction H UC UH Sig)
    (i : Nat) : H :=
  HashAll C (t.BlockStakeOutputIDObjs i)

/-- `t.CoinOutputSum()`: the named result `sum` starts as the zero `Currency`,
the first loop adds the coin outputs, the second the miner fees. -/
def Transaction.CoinOutputSum (t : Transaction H UC UH Sig) : Currency :=
  let sum : Currency := ⟨0⟩
  let sum := t.CoinOutputs.foldl (fun sum sco => sum.Add sco.Value) sum
  let sum := t.MinerFees.foldl (fun sum fee => sum.Add fee) sum
  sum

/-- The serialization of the six non-signature fields in declaration order, as
the specification words it; compared below with what the code hashes. -/
def specFieldSerialization (C : Codec H UC UH) (t : Transaction H UC UH Sig) : List Nat :=
  C.CoinInputs t.CoinInputs ++ C.CoinOutputs t.CoinOutputs ++
  C.BlockStakeInputs t.BlockStakeInputs ++ C.BlockStakeOutputs t.BlockStakeOutputs ++
  C.MinerFees t.MinerFees ++ C.ArbitraryData t.ArbitraryData

end

/-- A concrete codec to evaluate the definitions with: the hash is the identity
on byte strings (hence injective) and a field is written as its length. -/
def Codec.plain : Codec (List Nat) Unit Unit where
  HashBytes := fun b => b
  CoinInputs := fun v => EncUint64 v.length
  CoinOutputs := fun v => EncUint64 v.length
  BlockStakeInputs := fun v => EncUint64 v.length
  BlockStakeOutputs := fun v => EncUint64 v.length
  MinerFees := fun v => EncUint64 v.length
  ArbitraryData := fun v => EncUint64 v.length

/-- The transaction without any input, output, fee, data or signature. -/
def emptyTransaction : Transaction (List Nat) Unit Unit Nat :=
  ⟨[], [], [], [], [], [], []⟩

/-- A transaction with one coin output of 5, one miner fee of 2 and the given
signatures. -/
def sampleTransaction (sigs : List Nat) : Transaction (List Nat) Unit Unit Nat :=
  ⟨[⟨[1], ()⟩], [⟨⟨5⟩, ()⟩], [], [⟨⟨7⟩, ()⟩], [⟨2⟩], [[3, 4]], sigs⟩

/-! ## Block creator (`modules/blockcreator/blockcreator.go`)

The collaborators (consensus set, transaction pool, persistence, log, thread
group) are outside this file: each call made to them is recorded as an `Event`,
in program order, and its outcome is supplied by a `World`. -/

/-- Modelled from the spec: `modules.ConsensusChangeID` is declared outside the
sources at hand; "an opaque cursor identifying a position in the ordered stream
of consensus state transitions". -/
abbrev ConsensusChangeID := Nat

/-- Modelled from the spec: `modules.ConsensusChangeBeginning` is declared
outside the sources at hand; "a distinguished sentinel value means start of
history". -/
def ConsensusChangeBeginning : ConsensusChangeID := 0

/-- Modelled from the spec: `types.Target` is declared outside the sources at
hand; the persisted "Target target", whose zero value is `types.Target{}`. -/
structure Target where
  val : Nat
deriving DecidableEq, Repr

/-- The zero value `types.Target{}`. -/
def Target.zero : Target := ⟨0⟩

/-- The error a `ConsensusSetSubscribe` call can return: the sentinel
`modules.ErrInvalidConsensusChangeID`, or any other error with its text. -/
inductive SubscribeError where
  | ErrInvalidConsensusChangeID
  | other (msg : String)
deriving DecidableEq, Repr

/-- `err.Error()`; the text of the sentinel is declared elsewhere and stays a
parameter. -/
def SubscribeError.Error (errInvalidText : String) : SubscribeError → String
  | .ErrInvalidConsensusChangeID => errInvalidText
  | .other msg => msg

/-- The fields of `b.persist` used in `blockcreator.go`. -/
structure blockcreator.persistence where
  RecentChange : ConsensusChangeID
  Height : Nat
  Target : Target
deriving DecidableEq, Repr

/-- The calls the block creator makes to its collaborators. A subscription and
a save carry the value of `b.persist` at the time of the call, and a fallible
call whether it succeeded. -/
inductive blockcreator.Event where
  | initPersist (ok : Bool)
  | consensusSetSubscribe (start : ConsensusChangeID) (persist : blockcreator.persistence)
  | muLock
  | muUnlock
  | logPrintln (msg : String)
  | save (persist : blockcreator.persistence) (ok : Bool)
  | onStopCsUnsubscribe
  | transactionPoolSubscribe
  | onStopTpoolUnsubscribe
  | tgStop (ok : Bool)
  | csUnsubscribe
  | saveSync (persist : blockcreator.persistence) (ok : Bool)
  | logClose (ok : Bool)
deriving DecidableEq, Repr

/-- The `BlockCreator` struct: its three collaborators, the persisted fields
and the directory (log, lock and thread group live in the events). -/
structure blockcreator.BlockCreator (CS TP WL : Type) where
  cs : CS
  tpool : TP
  wallet : WL
  persist : blockcreator.persistence
  persistDir : String

/-- Outcomes of the calls `New` and `startupRescan` make, one field per call
site: `initPersist` fails or loads `b.persist`; a subscription returns an error
or `nil` and leaves `b.persist` as the changes delivered during the call made
it; the two saves return an error or `nil`. -/
structure blockcreator.World where
  errInvalidText : String
  initPersist : Except String blockcreator.persistence
  subscribe : blockcreator.persistence → Option SubscribeError × blockcreator.persistence
  rescanSave : Option String
  rescanSubscribe : blockcreator.persistence → Option SubscribeError × blockcreator.persistence
  save : Option String

/-- What `New` returns, with the calls it made. -/
structure blockcreator.NewResult (CS TP WL : Type) where
  b : Option (blockcreator.BlockCreator CS TP WL)
  err : Option String
  trace : List blockcreator.Event

section
variable {CS TP WL : Type}

/-- `b.startupRescan()`: under the lock the three fields are reset and saved;
a failed save returns; otherwise the consensus set is subscribed to from
`ConsensusChangeBeginning`. Returns `b`, the calls so far and the error. -/
def blockcreator.startupRescan (W : blockcreator.World)
    (b : blockcreator.BlockCreator CS TP WL) (tr : List blockcreator.Event) :
    blockcreator.BlockCreator CS TP WL × List blockcreator.Event × Option String :=
  let tr := tr ++ [.muLock, .logPrintln "Performing a block creator rescan."]
  let b := { b with persist := { b.persist with RecentChange := ConsensusChangeBeginning } }
  let b := { b with persist := { b.persist with Height := 0 } }
  let b := { b with persist := { b.persist with Target := Target.zero } }
  let err := W.rescanSave
  let tr := tr ++ [.save b.persist err.isNone, .muUnlock]
  match err with
  | some e => (b, tr, some e)
  | none =>
    let tr := tr ++ [.consensusSetSubscribe ConsensusChangeBeginning b.persist]
    match W.rescanSubscribe b.persist with
    | (some e, p) => ({ b with persist := p }, tr, some (e.Error W.errInvalidText))
    | (none, p) => ({ b with persist := p }, tr ++ [.onStopCsUnsubscribe], none)

/-- The end of `New`, after the consensus subscription: the stop functions, the
transaction pool subscription and the save "after synchronizing with consensus". -/
def blockcreator.New.finish (W : blockcreator.World)
    (b : blockcreator.BlockCreator CS TP WL) (tr : List blockcreator.Event) :
    blockcreator.NewResult CS TP WL :=
  let tr := tr ++ [.onStopCsUnsubscribe, .transactionPoolSubscribe, .onStopTpoolUnsubscribe]
  let err := W.save
  let tr := tr ++ [.save b.persist err.isNone]
  match err with
  | some e => ⟨none, some ("block creator could not save during startup: " ++ e), tr⟩
  | none => ⟨some b, none, tr⟩

/-- `blockcreator.New(cs, tpool, w, persistDir)`; a `nil` collaborator is `none`. -/
def blockcreator.New (W : blockcreator.World) (cs : Option CS) (tpool : Option TP)
    (w : Option WL) (persistDir : String) : blockcreator.NewResult CS TP WL :=
  match cs with
  | none => ⟨none, some "A consensset is required to create a block creator", []⟩
  | some cs =>
  match tpool with
  | none => ⟨none, some "A transaction pool is required to create a block creator", []⟩
  | some tpool =>
  match w with
  | none => ⟨none, some "A wallet is required to create a block creator", []⟩
  | some w =>
  match W.initPersist with
  | .error e =>
    ⟨none, some ("block creator persistence startup failed: " ++ e), [.initPersist false]⟩
  | .ok p =>
    let b : blockcreator.BlockCreator CS TP WL :=
      { cs := cs, tpool := tpool, wallet := w, persist := p, persistDir := persistDir }
    let tr := [.initPersist true, .consensusSetSubscribe b.persist.RecentChange b.persist]
    match W.subscribe b.persist with
    | (some .ErrInvalidConsensusChangeID, p1) =>
      match blockcreator.startupRescan W { b with persist := p1 } tr with
      | (_, tr, some e) =>
        ⟨none, some ("block creator startup failed - rescanning failed: " ++ e), tr⟩
      | (b, tr, none) => blockcreator.New.finish W b tr
    | (some (.other msg), _) =>
      ⟨none, some ("block creator subscription failed: " ++ msg), tr⟩
    | (none, p1) => blockcreator.New.finish W { b with persist := p1 } tr

end

/-- Modelled from the spec: `build.JoinErrors` is not part of the sources at
hand; the failures are "all collected and returned together", joined by the
separator, and no failure is no error. -/
def build.JoinErrors (errs : List String) (sep : String) : Option String :=
  match errs with
  | [] => none
  | e :: es => some (es.foldl (fun acc s => acc ++ sep ++ s) e)

/-- Outcomes of the calls `Close` makes: stopping the thread group, the
synchronous save and closing the log each return an error or `nil`. -/
structure blockcreator.CloseWorld where
  tgStop : Option String
  saveSync : Option String
  logClose : Option String

section
variable {CS TP WL : Type}

/-- `b.Close()`: a failed `tg.Stop()` returns at once; otherwise, under the lock,
the consensus set is unsubscribed from, the state saved and the log closed, and
the failures of the last two are joined. Returns the error and the calls made. -/
def blockcreator.BlockCreator.Close (W : blockcreator.CloseWorld)
    (b : blockcreator.BlockCreator CS TP WL) : Option String × List blockcreator.Event :=
  match W.tgStop with
  | some err => (some err, [.tgStop false])
  | none =>
    let tr := [.tgStop true, .muLock, .csUnsubscribe]
    let errs : List String := []
    let tr := tr ++ [.saveSync b.persist W.saveSync.isNone]
    let errs := match W.saveSync with
      | some err => errs ++ ["save failed: " ++ err]
      | none => errs
    let tr := tr ++ [.logClose W.logClose.isNone]
    let errs := match W.logClose with
      | some err => errs ++ ["log.Close failed: " ++ err]
      | none => errs
    (build.JoinErrors errs "; ", tr ++ [.muUnlock])

end

/-- A block creator to evaluate `Close` with. -/
def blockcreator.sample : blockcreator.BlockCreator Unit Unit Unit :=
  { cs := (), tpool := (), wallet := (), persist := ⟨5, 9, ⟨3⟩⟩, persistDir := "dir" }

/-- A world in which the persisted cursor 5 is not recognized and every other
call succeeds. -/
def blockcreator.desyncWorld (rescanSave : Option String) : blockcreator.World :=
  { errInvalidText := "invalid consensus change id"
    initPersist := .ok ⟨5, 9, ⟨3⟩⟩
    subscribe := fun p => (some .ErrInvalidConsensusChangeID, p)
    rescanSave := rescanSave
    rescanSubscribe := fun p => (none, { p with RecentChange := 8, Height := 2 })
    save := none }

/-! ## Explorer (`modules/explorer/explorer.go`) -/

/-- The calls the explorer makes to its collaborators. -/
inductive explorer.Event where
  | initPersist (ok : Bool)
  | dbView (ok : Bool)
  | consensusSetSubscribe (start : ConsensusChangeID)
  | csUnsubscribe
  | dbClose (ok : Bool)
deriving DecidableEq, Repr

/-- The `Explorer` struct: the consensus set, the directory and the chain
description handed to `New` (the genesis fields are derived from `chainCts`). -/
structure explorer.Explorer (CS BI CC : Type) where
  cs : CS
  persistDir : String
  bcInfo : BI
  chainCts : CC

/-- Outcomes of the calls `New` and `Close` make: `initPersist` returns an error
or `nil`, the database view fails or yields the recent change, the subscription
and closing the database return an error or `nil`. -/
structure explorer.World where
  errInvalidText : String
  initPersist : Option String
  dbView : Except String ConsensusChangeID
  subscribe : ConsensusChangeID → Option SubscribeError
  dbClose : Option String

/-- What `New` returns, with the calls it made. -/
structure explorer.NewResult (CS BI CC : Type) where
  e : Option (explorer.Explorer CS BI CC)
  err : Option String
  trace : List explorer.Event

/-- The error `errNilCS`. -/
def explorer.errNilCS : String := "explorer cannot use a nil consensus set"

section
variable {CS BI CC : Type}

/-- `explorer.New(cs, persistDir, bcInfo, chainCts)`; a `nil` consensus set is
`none`. Any error of the subscription is returned. -/
def explorer.New (W : explorer.World) (cs : Option CS) (persistDir : String) (bcInfo : BI)
    (chainCts : CC) : explorer.NewResult CS BI CC :=
  match cs with
  | none => ⟨none, some explorer.errNilCS, []⟩
  | some cs =>
    let e : explorer.Explorer CS BI CC :=
      { cs := cs, persistDir := persistDir, bcInfo := bcInfo, chainCts := chainCts }
    match W.initPersist with
    | some err => ⟨none, some err, [.initPersist false]⟩
    | none =>
      match W.dbView with
      | .error err => ⟨none, some err, [.initPersist true, .dbView false]⟩
      | .ok recentChange =>
        let tr := [.initPersist true, .dbView true, .consensusSetSubscribe recentChange]
        match W.subscribe recentChange with
        | some err =>
          ⟨none, some ("explorer subscription failed: " ++ err.Error W.errInvalidText), tr⟩
        | none => ⟨some e, none, tr⟩

/-- `e.Close()`: closes the database and returns its error. -/
def explorer.Explorer.Close (W : explorer.World) (_e : explorer.Explorer CS BI CC) :
    Option String × List explorer.Event :=
  (W.dbClose, [.dbClose W.dbClose.isNone])

end

/-- An explorer to evaluate `Close` with. -/
def explorer.sample : explorer.Explorer Unit Unit Unit :=
  { cs := (), persistDir := "dir", bcInfo := (), chainCts := () }

/-- A world in which the persisted cursor 5 is not recognized by the consensus
set, while a subscription from the beginning would succeed, as would every
other call. -/
def explorer.desyncWorld : explorer.World :=
  { errInvalidText := "invalid consensus change id"
    initPersist := none
    dbView := .ok 5
    subscribe := fun c =>
      if c = ConsensusChangeBeginning then none else some .ErrInvalidConsensusChangeID
    dbClose := none }

/-! ## Wallet commands (`pkg/client/walletcmd.go`) -/

/-- The UTF-8 bytes of a character, given by its code point. -/
def client.utf8Bytes (c : Nat) : List Nat :=
  if c < 0x80 then [c]
  else if c < 0x800 then [0xC0 + c / 64, 0x80 + c % 64]
  else if c < 0x10000 then [0xE0 + c / 4096, 0x80 + c / 64 % 64, 0x80 + c % 64]
  else [0xF0 + c / 262144, 0x80 + c / 4096 % 64, 0x80 + c / 64 % 64, 0x80 + c % 64]

/-- The bytes `[]byte(s)` of a Go string. -/
def client.bytesOf (s : String) : List Nat :=
  (s.toList.map fun c => client.utf8Bytes c.toNat).foldr (fun b acc => b ++ acc) []

/-- The alphabet of the standard base64 encoding (RFC 4648). -/
def client.base64Alphabet : List Char :=
  "ABCDEFGHIJKLMNOPQRSTUVWXYZabcdefghijklmnopqrstuvwxyz0123456789+/".toList

/-- The character of a 6-bit value. -/
def client.base64Char (n : Nat) : Char :=
  client.base64Alphabet.getD n 'A'

/-- The characters of `base64.StdEncoding.EncodeToString(b)`: three bytes give
four characters, the last one or two bytes are padded with `=`. -/
def client.base64Chars : List Nat → List Char
  | a :: b :: c :: rest =>
    client.base64Char (a / 4) :: client.base64Char (a % 4 * 16 + b / 16) ::
      client.base64Char (b % 16 * 4 + c / 64) :: client.base64Char (c % 64) ::
      client.base64Chars rest
  | [a, b] =>
    [client.base64Char (a / 4), client.base64Char (a % 4 * 16 + b / 16),
     client.base64Char (b % 16 * 4), '=']
  | [a] => [client.base64Char (a / 4), client.base64Char (a % 4 * 16), '=', '=']
  | [] => []

/-- `base64.StdEncoding.EncodeToString(b)`. -/
def client.base64EncodeToString (b : List Nat) : String :=
  String.mk (client.base64Chars b)

/-- A call `_DefaultClient.httpClient.Post(resource, data)`. -/
structure client.PostCall where
  resource : String
  data : String
deriving DecidableEq, Repr

/-- What a command did: the posts it made, the arguments of `Die` if it died,
and what it printed otherwise. -/
structure client.CmdResult where
  posts : List client.PostCall
  died : Option (String × String)
  printed : String
deriving DecidableEq, Repr

/-- The `Use` line of `walletRegisterDataCmd`, which runs
`Wrap(walletregisterdatacmd)`. -/
def client.walletRegisterDataCmd.Use : String := "registerdata <namespace> <data> <dest>"

/-- `walletregisterdatacmd(namespace, dest, data string)`, the parameters in the
order of the source (`ns` stands for `namespace`); `postErr` is what the post
returns. -/
def client.walletregisterdatacmd (postErr : Option String) (ns dest data : String) :
    client.CmdResult :=
  let encodedData := client.base64EncodeToString (client.bytesOf (ns ++ data))
  let post : client.PostCall :=
    ⟨"/wallet/data", "destination=" ++ dest ++ "&data=" ++ encodedData⟩
  match postErr with
  | some err => ⟨[post], some ("Could not register data:", err), ""⟩
  | none => ⟨[post], none, "Registered data to " ++ dest ++ "\n"⟩

/-- An `outputPair`; the condition type `types.UnlockConditionProxy` is declared
elsewhere and stays a parameter. -/
structure client.outputPair (Cond : Type) where
  Condition : Cond
  Value : Currency

/-- The parsers `parsePairedOutputs` calls, declared elsewhere:
`_CurrencyConvertor.ParseCoinString`, `uh.LoadString`,
`types.NewCondition(types.NewUnlockHashCondition(uh))` and
`pair.Condition.UnmarshalJSON` on a fresh pair. An error is its text. -/
structure client.Parsers (UH Cond : Type) where
  ParseCoinString : String → Except String Currency
  LoadString : String → Except String UH
  NewUnlockHashCondition : UH → Cond
  UnmarshalJSON : String → Except String Cond

section
variable {UH Cond : Type}

/-- The loop `for i := 0; i < argn; i += 2` of `parsePairedOutputs`, from index
`i` with the pairs collected so far; it returns the named results `pairs` and
`err`. The first argument bounds the number of iterations; `none` means the
bound was too small. -/
def client.parsePairedOutputs.loop (P : client.Parsers UH Cond) (args : List String)
    (argn : Nat) : Nat → Nat → List (client.outputPair Cond) →
    Option (List (client.outputPair Cond) × Option String)
  | 0, _, _ => none
  | fuel + 1, i, pairs =>
    if i < argn then
      match P.ParseCoinString (args.getD (i + 1) "") with
      | .error err =>
        some (pairs, some ("failed to parse amount/value for output #" ++ toString (i / 2) ++
          ": " ++ err))
      | .ok value =>
        match P.LoadString (args.getD i "") with
        | .ok uh =>
          client.parsePairedOutputs.loop P args argn fuel (i + 2)
            (pairs ++ [⟨P.NewUnlockHashCondition uh, value⟩])
        | .error _ =>
          match P.UnmarshalJSON (args.getD i "") with
          | .error _ =>
            some (pairs, some
              ("condition has to be UnlockHash or JSON-encoded UnlockCondition, output #" ++
                toString (i / 2) ++ "'s was neither"))
          | .ok c =>
            client.parsePairedOutputs.loop P args argn fuel (i + 2) (pairs ++ [⟨c, value⟩])
    else some (pairs, none)

/-- `parsePairedOutputs(args)`: the two guards on the number of arguments, then
the loop. -/
def client.parsePairedOutputs (P : client.Parsers UH Cond) (args : List String) :
    Option (List (client.outputPair Cond) × Option String) :=
  let argn := args.length
  if argn < 2 then
    some ([], some "not enough arguments, at least 2 required")
  else if argn % 2 ≠ 0 then
    some ([], some
      "arguments have to be given in pairs of '<dest>|<rawCondition>'+'<value>'")
  else
    client.parsePairedOutputs.loop P args argn (argn + 1) 0 []

/-- The condition an argument stands for, in the words of the claim: the unlock
hash condition when it parses as an unlock hash, else the JSON-encoded unlock
condition when it parses as one. -/
def client.specCondition (P : client.Parsers UH Cond) (a : String) : Option Cond :=
  match P.LoadString a with
  | .ok uh => some (P.NewUnlockHashCondition uh)
  | .error _ =>
    match P.UnmarshalJSON a with
    | .ok c => some c
    | .error _ => none

/-- The `k`-th pair the arguments stand for, if both of its arguments parse:
the value of `args[2k+1]` and the condition of `args[2k]`. -/
def client.specPair (P : client.Parsers UH Cond) (args : List String) (k : Nat) :
    Option (client.outputPair Cond) :=
  match P.ParseCoinString (args.getD (2 * k + 1) "") with
  | .error _ => none
  | .ok v =>
    match client.specCondition P (args.getD (2 * k) "") with
    | none => none
    | some c => some ⟨c, v⟩

end

/-- The number a non-empty string of decimal digits stands for. -/
def client.sampleAmount (s : String) : Option Nat :=
  s.toList.foldl
    (fun acc c => acc.bind fun n =>
      if 48 ≤ c.toNat ∧ c.toNat ≤ 57 then some (n * 10 + (c.toNat - 48)) else none)
    (if s.toList = [] then none else some 0)

/-- Parsers to evaluate with: an amount is a string of digits, an unlock hash a
string starting with `0`, a JSON condition a string starting with an opening
brace; a condition is kept as its text. -/
def client.sampleParsers : client.Parsers String String where
  ParseCoinString := fun s =>
    match client.sampleAmount s with
    | some n => .ok ⟨n⟩
    | none => .error "invalid amount"
  LoadString := fun s =>
    if s.toList.head? = some '0' then .ok s else .error "invalid unlock hash"
  NewUnlockHashCondition := fun uh => "hash:" ++ uh
  UnmarshalJSON := fun s =>
    if s.toList.head? = some '\x7b' then .ok s else .error "invalid JSON"

/-! ## Arithmetic of the masks and shifts -/

/-- Masking with a run of `w` ones starting at bit `k` keeps exactly the part of
a `(k + w)`-bit number above bit `k`. -/
theorem and_high_mask (k w x : Nat) (hx : x < 2 ^ (k + w)) :
    x &&& ((2 ^ w - 1) <<< k) = x / 2 ^ k * 2 ^ k := by
  apply Nat.eq_of_testBit_eq
  intro i
  rw [Nat.testBit_and, Nat.testBit_shiftLeft, Nat.testBit_two_pow_sub_one,
    ← Nat.shiftRight_eq_div_pow, ← Nat.shiftLeft_eq, Nat.testBit_shiftLeft,
    Nat.testBit_shiftRight]
  by_cases hk : k ≤ i
  · by_cases hw : i < k + w
    · have h1 : i - k < w := by omega
      simp [hk, h1]
    · have hlt : x < 2 ^ i :=
        lt_of_lt_of_le hx (Nat.pow_le_pow_right (by norm_num) (by omega))
      have h2 : k + (i - k) = i := by omega
      simp [h2, Nat.testBit_lt_two_pow hlt]
  · simp [hk]

theorem and_blockHeightOOBMask (x : Nat) (hx : x < 2 ^ 64) :
    x &&& blockHeightOOBMask = x / 2 ^ 50 * 2 ^ 50 := by
  have hm : blockHeightOOBMask = (2 ^ 14 - 1) <<< 50 := by decide
  rw [hm]
  exact and_high_mask 50 14 x hx

theorem and_txSeqIndexOOBMask (x : Nat) (hx : x < 2 ^ 16) :
    x &&& txSeqIndexOOBMask = x / 2 ^ 14 * 2 ^ 14 := by
  have hm : txSeqIndexOOBMask = (2 ^ 2 - 1) <<< 14 := by decide
  rw [hm]
  exact and_high_mask 14 2 x hx

theorem and_txSeqIndexMaxMask (x : Nat) : x &&& txSeqIndexMaxMask = x % 2 ^ 14 := by
  have hm : txSeqIndexMaxMask = 2 ^ 14 - 1 := by decide
  rw [hm]
  exact Nat.and_pow_two_sub_one_eq_mod x 14

/-- The height guard fires exactly on heights of more than 50 bits. -/
theorem heightGuard_iff (height : Nat) (hx : height < 2 ^ 64) :
    (height &&& blockHeightOOBMask) > 0 ↔ 2 ^ 50 ≤ height := by
  rw [and_blockHeightOOBMask height hx]
  omega

/-- The sequence guard fires exactly on indices of more than 14 bits. -/
theorem seqGuard_iff (seq : Nat) (hx : seq < 2 ^ 16) :
    (seq &&& txSeqIndexOOBMask) > 0 ↔ 2 ^ 14 ≤ seq := by
  rw [and_txSeqIndexOOBMask seq hx]
  omega

/-- In range, the constructor returns `height * 2^14 + seq`. -/
theorem NewTransactionShortID_ok (height seq : Nat) (hh : height < 2 ^ 50) (hs : seq < 2 ^ 14) :
    NewTransactionShortID height seq = .ok (height * 2 ^ 14 + seq) := by
  have g1 : ¬ (height &&& blockHeightOOBMask) > 0 := by
    rw [heightGuard_iff height (by omega)]; omega
  have g2 : ¬ (seq &&& txSeqIndexOOBMask) > 0 := by
    rw [seqGuard_iff seq (by omega)]; omega
  have e1 : u64 (height <<< txShortIDBlockHeightShift) = 2 ^ 14 * height := by
    simp only [u64, txShortIDBlockHeightShift, Nat.shiftLeft_eq]; omega
  have e2 : u64 (seq &&& txSeqIndexMaxMask) = seq := by
    rw [and_txSeqIndexMaxMask]; simp only [u64]; omega
  have e3 : 2 ^ 14 * height ||| seq = 2 ^ 14 * height + seq :=
    (Nat.mul_add_lt_is_or hs height).symm
  unfold NewTransactionShortID
  rw [if_neg g1, if_neg g2, e1, e2, e3, Nat.mul_comm]

theorem BlockHeight_pack (height seq : Nat) (hs : seq < 2 ^ 14) :
    TransactionShortID.BlockHeight (height * 2 ^ 14 + seq) = height := by
  simp only [TransactionShortID.BlockHeight, txShortIDBlockHeightShift, Nat.shiftRight_eq_div_pow]
  omega

theorem TransactionSequenceIndex_pack (height seq : Nat) (hs : seq < 2 ^ 14) :
    TransactionShortID.TransactionSequenceIndex (height * 2 ^ 14 + seq) = seq := by
  simp only [TransactionShortID.TransactionSequenceIndex, and_txSeqIndexMaxMask, u16]
  omega

/-- Decoding inverts encoding on every `uint64`. -/
theorem DecUint64_EncUint64 (x : Nat) (hx : x < 2 ^ 64) : DecUint64 (EncUint64 x) = x := by
  simp only [DecUint64, EncUint64, List.getD_cons_zero, List.getD_cons_succ]
  omega

theorem EncUint64_length (x : Nat) : (EncUint64 x).length = 8 := rfl

/-- The encoding is injective on `uint64`. -/
theorem EncUint64_injective (x y : Nat) (hx : x < 2 ^ 64) (hy : y < 2 ^ 64)
    (h : EncUint64 x = EncUint64 y) : x = y := by
  rw [← DecUint64_EncUint64 x hx, ← DecUint64_EncUint64 y hy, h]

/-- Reading 8 bytes off the front of a reader decodes them and leaves the rest. -/
theorem UnmarshalSia_eight (b rest : List Nat) (hb : b.length = 8) :
    TransactionShortID.UnmarshalSia (b ++ rest) = .ok (DecUint64 b, rest) := by
  have hne : (b ++ rest).isEmpty = false := by
    cases b with
    | nil => simp at hb
    | cons a as => rfl
  have ht : (b ++ rest).take 8 = b := by
    rw [← hb]; exact List.take_left b rest
  have hd : (b ++ rest).drop 8 = rest := by
    rw [← hb]; exact List.drop_left b rest
  have hm : min 8 (b ++ rest).length = 8 := by
    rw [List.length_append, hb]; omega
  simp only [TransactionShortID.UnmarshalSia, Reader.Read, hne, Bool.false_and,
    List.length_replicate, ht, hd, hm,
    List.drop_replicate, Nat.sub_self, List.replicate_zero, List.append_nil]
  rfl

/-! ## Short transaction IDs: the claims -/

/-- C1: for every block height `h < 2^50` and sequence index `s < 2^14`,
`NewTransactionShortID h s` returns a short ID `x`; `MarshalSia` writes 8 bytes
for it without error, `UnmarshalSia` decodes those bytes (whatever follows them
in the reader) back to `x`, and `x` has block height `h` and sequence index `s`. -/
theorem shortID_marshal_roundtrip (h s : Nat) (hh : h < 2 ^ 50) (hs : s < 2 ^ 14) :
    ∃ x, NewTransactionShortID h s = .ok x ∧
      (TransactionShortID.MarshalSia x []).2 = none ∧
      (TransactionShortID.MarshalSia x []).1.length = 8 ∧
      (∀ rest, TransactionShortID.UnmarshalSia ((TransactionShortID.MarshalSia x []).1 ++ rest) =
        .ok (x, rest)) ∧
      TransactionShortID.BlockHeight x = h ∧ TransactionShortID.TransactionSequenceIndex x = s := by
  refine ⟨h * 2 ^ 14 + s, NewTransactionShortID_ok h s hh hs, rfl, rfl, ?_,
    BlockHeight_pack h s hs, TransactionSequenceIndex_pack h s hs⟩
  intro rest
  have hx : h * 2 ^ 14 + s < 2 ^ 64 := by omega
  have hu : u64 (h * 2 ^ 14 + s) = h * 2 ^ 14 + s := by simp only [u64]; omega
  have hd := DecUint64_EncUint64 (h * 2 ^ 14 + s) hx
  simp only [TransactionShortID.MarshalSia, Writer.Write, hu, List.nil_append]
  rw [UnmarshalSia_eight (EncUint64 (h * 2 ^ 14 + s)) rest rfl, hd]

theorem shortID_marshal_roundtrip_witness :
    ∃ x, NewTransactionShortID 7 3 = .ok x ∧
      (TransactionShortID.MarshalSia x []).2 = none ∧
      (TransactionShortID.MarshalSia x []).1.length = 8 ∧
      (∀ rest, TransactionShortID.UnmarshalSia ((TransactionShortID.MarshalSia x []).1 ++ rest) =
        .ok (x, rest)) ∧
      TransactionShortID.BlockHeight x = 7 ∧ TransactionShortID.TransactionSequenceIndex x = 3 :=
  shortID_marshal_roundtrip 7 3 (by decide) (by decide)

/-- C2: on every `uint64` height and `uint16` sequence index,
`NewTransactionShortID` panics if and only if the height is at least `2^50` or
the index at least `2^14`, and returns a value if and only if both are in range. -/
theorem NewTransactionShortID_panics_iff (height seq : Nat)
    (hh : height < 2 ^ 64) (hs : seq < 2 ^ 16) :
    ((∃ msg, NewTransactionShortID height seq = .error msg) ↔
        (2 ^ 50 ≤ height ∨ 2 ^ 14 ≤ seq)) ∧
    ((∃ x, NewTransactionShortID height seq = .ok x) ↔
        (height < 2 ^ 50 ∧ seq < 2 ^ 14)) := by
  by_cases g1 : 2 ^ 50 ≤ height
  · have e : NewTransactionShortID height seq = .error "block height out of bounds" := by
      unfold NewTransactionShortID
      rw [if_pos ((heightGuard_iff height hh).2 g1)]
    rw [e]
    refine ⟨⟨fun _ => Or.inl g1, fun _ => ⟨_, rfl⟩⟩, ⟨?_, fun h => absurd g1 (by omega)⟩⟩
    rintro ⟨x, hx⟩
    cases hx
  · by_cases g2 : 2 ^ 14 ≤ seq
    · have e : NewTransactionShortID height seq =
          .error "transaction sequence ID out of bounds" := by
        unfold NewTransactionShortID
        rw [if_neg (fun h => g1 ((heightGuard_iff height hh).1 h)),
          if_pos ((seqGuard_iff seq hs).2 g2)]
      rw [e]
      refine ⟨⟨fun _ => Or.inr g2, fun _ => ⟨_, rfl⟩⟩, ⟨?_, fun h => absurd g2 (by omega)⟩⟩
      rintro ⟨x, hx⟩
      cases hx
    · rw [NewTransactionShortID_ok height seq (by omega) (by omega)]
      refine ⟨⟨?_, fun h => by omega⟩, ⟨fun _ => ⟨by omega, by omega⟩, fun _ => ⟨_, rfl⟩⟩⟩
      rintro ⟨msg, hm⟩
      cases hm

theorem NewTransactionShortID_panics_iff_witness :
    ((∃ msg, NewTransactionShortID (2 ^ 50) 0 = .error msg) ↔
        (2 ^ 50 ≤ 2 ^ 50 ∨ 2 ^ 14 ≤ 0)) ∧
    ((∃ x, NewTransactionShortID (2 ^ 50) 0 = .ok x) ↔
        (2 ^ 50 < 2 ^ 50 ∧ 0 < 2 ^ 14)) :=
  NewTransactionShortID_panics_iff (2 ^ 50) 0 (by decide) (by decide)

/-- C3: for in-range pairs `(h1, s1)` and `(h2, s2)` both constructions return,
the two short IDs are `uint64` values, and the first is numerically smaller than
the second if and only if `h1 < h2`, or `h1 = h2` and `s1 < s2`; in particular
`h1 < h2` alone makes the first smaller. -/
theorem shortID_order_chronological (h1 s1 h2 s2 : Nat)
    (hh1 : h1 < 2 ^ 50) (hs1 : s1 < 2 ^ 14) (hh2 : h2 < 2 ^ 50) (hs2 : s2 < 2 ^ 14) :
    ∃ x1 x2, NewTransactionShortID h1 s1 = .ok x1 ∧ NewTransactionShortID h2 s2 = .ok x2 ∧
      x1 < 2 ^ 64 ∧ x2 < 2 ^ 64 ∧
      (x1 < x2 ↔ (h1 < h2 ∨ (h1 = h2 ∧ s1 < s2))) ∧
      (h1 < h2 → x1 < x2) := by
  have b1 : h1 * 2 ^ 14 + s1 < 2 ^ 64 := by omega
  have b2 : h2 * 2 ^ 14 + s2 < 2 ^ 64 := by omega
  have ord : h1 * 2 ^ 14 + s1 < h2 * 2 ^ 14 + s2 ↔ (h1 < h2 ∨ (h1 = h2 ∧ s1 < s2)) := by
    omega
  have mono : h1 < h2 → h1 * 2 ^ 14 + s1 < h2 * 2 ^ 14 + s2 := by
    omega
  exact ⟨h1 * 2 ^ 14 + s1, h2 * 2 ^ 14 + s2, NewTransactionShortID_ok h1 s1 hh1 hs1,
    NewTransactionShortID_ok h2 s2 hh2 hs2, b1, b2, ord, mono⟩

theorem shortID_order_chronological_witness :
    ∃ x1 x2, NewTransactionShortID 1 16383 = .ok x1 ∧ NewTransactionShortID 2 0 = .ok x2 ∧
      x1 < 2 ^ 64 ∧ x2 < 2 ^ 64 ∧
      (x1 < x2 ↔ (1 < 2 ∨ (1 = 2 ∧ 16383 < 0))) ∧
      (1 < 2 → x1 < x2) :=
  shortID_order_chronological 1 16383 2 0 (by decide) (by decide) (by decide) (by decide)

/-- C4, evaluated where it fails: the short ID of (height 0, index 1) is
chronologically before that of (height 1, index 0) and numerically smaller, yet
`MarshalSia` writes `[1,0,0,0,0,0,0,0]` for the first and `[0,64,0,0,0,0,0,0]`
for the second, and the first is not byte-wise lexicographically smaller: the
second is. -/
theorem MarshalSia_order_not_preserved :
    NewTransactionShortID 0 1 = .ok 1 ∧ NewTransactionShortID 1 0 = .ok 16384 ∧
    (TransactionShortID.MarshalSia 1 []).1 = [1, 0, 0, 0, 0, 0, 0, 0] ∧
    (TransactionShortID.MarshalSia 16384 []).1 = [0, 64, 0, 0, 0, 0, 0, 0] ∧
    lexLess (TransactionShortID.MarshalSia 1 []).1
      (TransactionShortID.MarshalSia 16384 []).1 = false ∧
    lexLess (TransactionShortID.MarshalSia 16384 []).1
      (TransactionShortID.MarshalSia 1 []).1 = true := by
  refine ⟨rfl, rfl, rfl, rfl, rfl, rfl⟩

/-! ## Transaction identity: the claims -/

section
variable {H UC UH Sig : Type}

/-- What `t.ID()` hashes: the six fields, one after the other. -/
theorem MarshalAll_IDObjs (C : Codec H UC UH) (t : Transaction H UC UH Sig) :
    MarshalAll C t.IDObjs = specFieldSerialization C t := by
  simp [Transaction.IDObjs, MarshalAll, Marshal, specFieldSerialization]

/-- What `t.CoinOutputID(i)` hashes. -/
theorem MarshalAll_CoinOutputIDObjs (C : Codec H UC UH) (t : Transaction H UC UH Sig) (i : Nat) :
    MarshalAll C (t.CoinOutputIDObjs i) =
      SpecifierCoinOutput.bytes ++ (specFieldSerialization C t ++ EncUint64 (u64 i)) := by
  simp [Transaction.CoinOutputIDObjs, MarshalAll, Marshal, specFieldSerialization]

/-- What `t.BlockStakeOutputID(i)` hashes. -/
theorem MarshalAll_BlockStakeOutputIDObjs (C : Codec H UC UH) (t : Transaction H UC UH Sig)
    (i : Nat) :
    MarshalAll C (t.BlockStakeOutputIDObjs i) =
      SpecifierBlockStakeOutput.bytes ++ (specFieldSerialization C t ++ EncUint64 (u64 i)) := by
  simp [Transaction.BlockStakeOutputIDObjs, MarshalAll, Marshal, specFieldSerialization]

/-- The two output specifiers are different 16-byte strings. -/
theorem SpecifierCoinOutput_ne_BlockStakeOutput :
    SpecifierCoinOutput.bytes ≠ SpecifierBlockStakeOutput.bytes := by
  decide

/-- Two strings with the same front differ as soon as the encoded indices differ. -/
theorem append_index_ne (pre mid : List Nat) (i j : Nat) (hi : i < 2 ^ 64) (hj : j < 2 ^ 64)
    (hij : i ≠ j) :
    pre ++ (mid ++ EncUint64 (u64 i)) ≠ pre ++ (mid ++ EncUint64 (u64 j)) := by
  intro h
  have h1 := List.append_cancel_left (List.append_cancel_left h)
  have ui : u64 i = i := by simp only [u64]; omega
  have uj : u64 j = j := by simp only [u64]; omega
  rw [ui, uj] at h1
  exact hij (EncUint64_injective i j hi hj h1)

/-- C5: two transactions that agree on CoinInputs, CoinOutputs,
BlockStakeInputs, BlockStakeOutputs, MinerFees and ArbitraryData (whatever
their signatures) have the same `ID()`, and for every index `i` the same
`CoinOutputID(i)` and `BlockStakeOutputID(i)`, for any hash and serialization. -/
theorem ID_signature_exclusion (C : Codec H UC UH) (t1 t2 : Transaction H UC UH Sig)
    (h1 : t1.CoinInputs = t2.CoinInputs) (h2 : t1.CoinOutputs = t2.CoinOutputs)
    (h3 : t1.BlockStakeInputs = t2.BlockStakeInputs)
    (h4 : t1.BlockStakeOutputs = t2.BlockStakeOutputs)
    (h5 : t1.MinerFees = t2.MinerFees) (h6 : t1.ArbitraryData = t2.ArbitraryData) :
    t1.ID C = t2.ID C ∧
    ∀ i, t1.CoinOutputID C i = t2.CoinOutputID C i ∧
      t1.BlockStakeOutputID C i = t2.BlockStakeOutputID C i := by
  refine ⟨?_, fun i => ⟨?_, ?_⟩⟩
  · simp only [Transaction.ID, Transaction.IDObjs, h1, h2, h3, h4, h5, h6]
  · simp only [Transaction.CoinOutputID, Transaction.CoinOutputIDObjs, h1, h2, h3, h4, h5, h6]
  · simp only [Transaction.BlockStakeOutputID, Transaction.BlockStakeOutputIDObjs,
      h1, h2, h3, h4, h5, h6]

end

theorem ID_signature_exclusion_witness :
    (sampleTransaction [1, 2]).TransactionSignatures ≠
      (sampleTransaction [9]).TransactionSignatures ∧
    ((sampleTransaction [1, 2]).ID Codec.plain = (sampleTransaction [9]).ID Codec.plain ∧
    ∀ i, (sampleTransaction [1, 2]).CoinOutputID Codec.plain i =
        (sampleTransaction [9]).CoinOutputID Codec.plain i ∧
      (sampleTransaction [1, 2]).BlockStakeOutputID Codec.plain i =
        (sampleTransaction [9]).BlockStakeOutputID Codec.plain i) :=
  ⟨by decide,
   ID_signature_exclusion Codec.plain (sampleTransaction [1, 2]) (sampleTransaction [9])
    rfl rfl rfl rfl rfl rfl⟩

section
variable {H UC UH Sig : Type}

/-- C6: for every transaction and index, the byte string hashed for
`CoinOutputID(i)` and the one hashed for `BlockStakeOutputID(i)` start with
different 16 bytes (the two specifiers), hence differ, and the two IDs differ
whenever the hash is injective. -/
theorem CoinOutputID_ne_BlockStakeOutputID (C : Codec H UC UH) (t : Transaction H UC UH Sig)
    (i : Nat) :
    (MarshalAll C (t.CoinOutputIDObjs i)).take 16 = SpecifierCoinOutput.bytes ∧
    (MarshalAll C (t.BlockStakeOutputIDObjs i)).take 16 = SpecifierBlockStakeOutput.bytes ∧
    (MarshalAll C (t.CoinOutputIDObjs i)).take 16 ≠
      (MarshalAll C (t.BlockStakeOutputIDObjs i)).take 16 ∧
    MarshalAll C (t.CoinOutputIDObjs i) ≠ MarshalAll C (t.BlockStakeOutputIDObjs i) ∧
    (Function.Injective C.HashBytes → t.CoinOutputID C i ≠ t.BlockStakeOutputID C i) := by
  have a : (MarshalAll C (t.CoinOutputIDObjs i)).take 16 = SpecifierCoinOutput.bytes := by
    rw [MarshalAll_CoinOutputIDObjs]
    exact List.take_left SpecifierCoinOutput.bytes _
  have b : (MarshalAll C (t.BlockStakeOutputIDObjs i)).take 16 =
      SpecifierBlockStakeOutput.bytes := by
    rw [MarshalAll_BlockStakeOutputIDObjs]
    exact List.take_left SpecifierBlockStakeOutput.bytes _
  have c : (MarshalAll C (t.CoinOutputIDObjs i)).take 16 ≠
      (MarshalAll C (t.BlockStakeOutputIDObjs i)).take 16 := by
    rw [a, b]
    exact SpecifierCoinOutput_ne_BlockStakeOutput
  have d : MarshalAll C (t.CoinOutputIDObjs i) ≠ MarshalAll C (t.BlockStakeOutputIDObjs i) :=
    fun h => c (by rw [h])
  exact ⟨a, b, c, d, fun inj h => d (inj h)⟩

/-- C7: for every transaction and `uint64` indices `i ≠ j`, the byte strings
hashed for `CoinOutputID(i)` and `CoinOutputID(j)` differ, and so do the IDs
whenever the hash is injective; likewise for `BlockStakeOutputID`. -/
theorem OutputID_index_separation (C : Codec H UC UH) (t : Transaction H UC UH Sig)
    (i j : Nat) (hi : i < 2 ^ 64) (hj : j < 2 ^ 64) (hij : i ≠ j) :
    MarshalAll C (t.CoinOutputIDObjs i) ≠ MarshalAll C (t.CoinOutputIDObjs j) ∧
    MarshalAll C (t.BlockStakeOutputIDObjs i) ≠ MarshalAll C (t.BlockStakeOutputIDObjs j) ∧
    (Function.Injective C.HashBytes →
      t.CoinOutputID C i ≠ t.CoinOutputID C j ∧
      t.BlockStakeOutputID C i ≠ t.BlockStakeOutputID C j) := by
  have a : MarshalAll C (t.CoinOutputIDObjs i) ≠ MarshalAll C (t.CoinOutputIDObjs j) := by
    rw [MarshalAll_CoinOutputIDObjs, MarshalAll_CoinOutputIDObjs]
    exact append_index_ne _ _ i j hi hj hij
  have b : MarshalAll C (t.BlockStakeOutputIDObjs i) ≠
      MarshalAll C (t.BlockStakeOutputIDObjs j) := by
    rw [MarshalAll_BlockStakeOutputIDObjs, MarshalAll_BlockStakeOutputIDObjs]
    exact append_index_ne _ _ i j hi hj hij
  exact ⟨a, b, fun inj => ⟨fun h => a (inj h), fun h => b (inj h)⟩⟩

end

/-- The identity hash of `Codec.plain` is injective. -/
theorem Codec.plain_injective : Function.Injective Codec.plain.HashBytes :=
  fun _ _ h => h

theorem CoinOutputID_ne_BlockStakeOutputID_witness :
    Function.Injective Codec.plain.HashBytes ∧
    (sampleTransaction []).CoinOutputID Codec.plain 0 ≠
      (sampleTransaction []).BlockStakeOutputID Codec.plain 0 :=
  ⟨Codec.plain_injective,
   (CoinOutputID_ne_BlockStakeOutputID Codec.plain (sampleTransaction []) 0).2.2.2.2
    Codec.plain_injective⟩

theorem OutputID_index_separation_witness :
    (0 : Nat) < 2 ^ 64 ∧ (1 : Nat) < 2 ^ 64 ∧ (0 : Nat) ≠ 1 ∧
    Function.Injective Codec.plain.HashBytes ∧
    (sampleTransaction []).CoinOutputID Codec.plain 0 ≠
      (sampleTransaction []).CoinOutputID Codec.plain 1 ∧
    (sampleTransaction []).BlockStakeOutputID Codec.plain 0 ≠
      (sampleTransaction []).BlockStakeOutputID Codec.plain 1 :=
  ⟨by decide, by decide, by decide, Codec.plain_injective,
   (OutputID_index_separation Codec.plain (sampleTransaction []) 0 1
      (by decide) (by decide) (by decide)).2.2 Codec.plain_injective⟩

/-- The empty transaction, serialized by `Codec.plain`, is 48 bytes long. -/
theorem specFieldSerialization_empty_length :
    (specFieldSerialization Codec.plain emptyTransaction).length = 48 := by
  decide

/-- C8 as stated fails for `ID()`: what `ID()` hashes for the empty transaction
is not a 16-byte Specifier followed by the serialization of the six fields,
whatever the Specifier. -/
theorem ID_input_has_no_specifier :
    ¬ ∃ S : Specifier, MarshalAll Codec.plain emptyTransaction.IDObjs =
        S.bytes ++ specFieldSerialization Codec.plain emptyTransaction := by
  rintro ⟨S, h⟩
  have hl := congrArg List.length h
  rw [MarshalAll_IDObjs, List.length_append, S.len, specFieldSerialization_empty_length] at hl
  simp [SpecifierLen] at hl

section
variable {H UC UH Sig : Type}

/-- C8, amended: `CoinOutputID(i)` and `BlockStakeOutputID(i)` hash their own
16-byte Specifier (the two are different), followed by the serialization of the
six non-signature fields in declaration order, followed by the index `i` as a
`uint64`; `ID()` hashes the serialization of the same six fields in the same
order, with no Specifier in front. -/
theorem ID_derivations_hashed_input (C : Codec H UC UH) (t : Transaction H UC UH Sig) (i : Nat) :
    t.ID C = C.HashBytes (specFieldSerialization C t) ∧
    t.CoinOutputID C i = C.HashBytes
      (SpecifierCoinOutput.bytes ++ (specFieldSerialization C t ++ EncUint64 (u64 i))) ∧
    t.BlockStakeOutputID C i = C.HashBytes
      (SpecifierBlockStakeOutput.bytes ++ (specFieldSerialization C t ++ EncUint64 (u64 i))) ∧
    SpecifierCoinOutput.bytes.length = 16 ∧ SpecifierBlockStakeOutput.bytes.length = 16 ∧
    SpecifierCoinOutput.bytes ≠ SpecifierBlockStakeOutput.bytes ∧
    (EncUint64 (u64 i)).length = 8 := by
  refine ⟨?_, ?_, ?_, rfl, rfl, SpecifierCoinOutput_ne_BlockStakeOutput, rfl⟩
  · rw [Transaction.ID, HashAll, MarshalAll_IDObjs]
  · rw [Transaction.CoinOutputID, HashAll, MarshalAll_CoinOutputIDObjs]
  · rw [Transaction.BlockStakeOutputID, HashAll, MarshalAll_BlockStakeOutputIDObjs]

end

/-! ## `Specifier.String` -/

/-- Without a zero byte among the indices still to visit, the loop ends with the
last index visited (or with the value it had, when none is left). -/
theorem Specifier.stringLoop_no_zero (s : List Nat) :
    ∀ (n k i : Nat), (∀ j, k ≤ j → j < k + n → s.getD j 0 ≠ 0) →
      Specifier.stringLoop s (List.range' k n) i = if n = 0 then i else k + n - 1 := by
  intro n
  induction n with
  | zero => intro k i _; simp [Specifier.stringLoop]
  | succ n ih =>
    intro k i hz
    have hk : s.getD k 0 ≠ 0 := hz k (Nat.le_refl k) (by omega)
    rw [List.range'_succ, Specifier.stringLoop, if_neg hk,
      ih (k + 1) k (fun j h1 h2 => hz j (by omega) (by omega))]
    by_cases hn : n = 0
    · simp [hn]
    · simp [hn]

/-- With a zero byte among the indices still to visit, the loop ends at the
first of them. -/
theorem Specifier.stringLoop_first_zero (s : List Nat) :
    ∀ (n k i r : Nat), k ≤ r → r < k + n → s.getD r 0 = 0 →
      (∀ j, k ≤ j → j < r → s.getD j 0 ≠ 0) →
      Specifier.stringLoop s (List.range' k n) i = r := by
  intro n
  induction n with
  | zero => intro k i r h1 h2; omega
  | succ n ih =>
    intro k i r h1 h2 hr hz
    rw [List.range'_succ, Specifier.stringLoop]
    by_cases hrk : r = k
    · subst hrk
      rw [if_pos hr]
    · have hk : s.getD k 0 ≠ 0 := hz k (Nat.le_refl k) (by omega)
      rw [if_neg hk]
      exact ih (k + 1) k r (by omega) (by omega) hr (fun j a b => hz j (by omega) b)

/-- What `String` returns on every specifier: the bytes before the first zero
byte when there is one, and the first 15 bytes when there is none. -/
theorem Specifier.String_spec (s : Specifier) :
    (∀ r, r < 16 → s.bytes.getD r 0 = 0 → (∀ j, j < r → s.bytes.getD j 0 ≠ 0) →
      s.String = s.bytes.take r) ∧
    ((∀ j, j < 16 → s.bytes.getD j 0 ≠ 0) → s.String = s.bytes.take 15) := by
  constructor
  · intro r hr h0 hz
    rw [Specifier.String, List.range_eq_range', SpecifierLen,
      Specifier.stringLoop_first_zero s.bytes 16 0 0 r (Nat.zero_le r) (by omega) h0
        (fun j _ b => hz j b)]
  · intro hz
    rw [Specifier.String, List.range_eq_range', SpecifierLen,
      Specifier.stringLoop_no_zero s.bytes 16 0 0 (fun j _ b => hz j (by omega))]
    rfl

/-- C9, evaluated where it fails: the specifier of sixteen letters `a` has no
zero byte, and `String` returns only its first 15 bytes instead of all 16. -/
theorem Specifier_String_drops_last_byte :
    (∀ b ∈ specifierAllA.bytes, b ≠ 0) ∧
    specifierAllA.String = List.replicate 15 97 ∧
    specifierAllA.String.length = 15 ∧
    specifierAllA.String ≠ specifierAllA.bytes := by
  decide

/-! ## `CoinOutputSum` -/

section
variable {H UC UH Sig : Type}

theorem foldl_Add_outputs (l : List (CoinOutput UH)) (a : Currency) :
    (l.foldl (fun sum sco => sum.Add sco.Value) a).i = a.i + (l.map fun o => o.Value.i).sum := by
  induction l generalizing a with
  | nil => simp
  | cons o os ih =>
    rw [List.foldl_cons, ih, List.map_cons, List.sum_cons]
    simp only [Currency.Add]
    omega

theorem foldl_Add_fees (l : List Currency) (a : Currency) :
    (l.foldl (fun sum fee => sum.Add fee) a).i = a.i + (l.map fun c => c.i).sum := by
  induction l generalizing a with
  | nil => simp
  | cons o os ih =>
    rw [List.foldl_cons, ih, List.map_cons, List.sum_cons]
    simp only [Currency.Add]
    omega

/-- C10: `CoinOutputSum` is the exact sum, over the natural numbers, of the
values of the coin outputs plus the miner fees; it is zero when both lists are
empty, and two transactions with the same coin outputs and miner fees have the
same sum, whatever their other fields. -/
theorem CoinOutputSum_exact (t : Transaction H UC UH Sig) :
    t.CoinOutputSum.i =
      (t.CoinOutputs.map fun o => o.Value.i).sum + (t.MinerFees.map fun c => c.i).sum ∧
    (t.CoinOutputs = [] → t.MinerFees = [] → t.CoinOutputSum = ⟨0⟩) ∧
    (∀ u : Transaction H UC UH Sig, u.CoinOutputs = t.CoinOutputs →
      u.MinerFees = t.MinerFees → u.CoinOutputSum = t.CoinOutputSum) := by
  refine ⟨?_, ?_, ?_⟩
  · simp only [Transaction.CoinOutputSum, foldl_Add_fees, foldl_Add_outputs]
    omega
  · intro h1 h2
    simp [Transaction.CoinOutputSum, h1, h2]
  · intro u h1 h2
    simp only [Transaction.CoinOutputSum, h1, h2]

end

theorem CoinOutputSum_exact_witness :
    (sampleTransaction [1]).CoinOutputSum.i = 5 + 2 ∧
    emptyTransaction.CoinOutputSum = ⟨0⟩ ∧
    (sampleTransaction [8, 9]).CoinOutputSum = (sampleTransaction [1]).CoinOutputSum :=
  ⟨(CoinOutputSum_exact (sampleTransaction [1])).1,
   (CoinOutputSum_exact emptyTransaction).2.1 rfl rfl,
   (CoinOutputSum_exact (sampleTransaction [1])).2.2 (sampleTransaction [8, 9]) rfl rfl⟩

/-! ## Block creator: the claims -/

section
variable {CS TP WL : Type}

/-- C11: whenever the consensus set, the transaction pool or the wallet is
`nil`, `blockcreator.New` returns a `nil` block creator and a non-nil error, and
has made no call at all before: no `initPersist`, no subscription, no save. -/
theorem blockcreator_New_fails_fast (W : blockcreator.World) (cs : Option CS)
    (tpool : Option TP) (w : Option WL) (persistDir : String)
    (h : cs = none ∨ tpool = none ∨ w = none) :
    (blockcreator.New W cs tpool w persistDir).b = none ∧
    (blockcreator.New W cs tpool w persistDir).err ≠ none ∧
    (blockcreator.New W cs tpool w persistDir).trace = [] := by
  cases cs with
  | none => simp [blockcreator.New]
  | some c =>
    cases tpool with
    | none => simp [blockcreator.New]
    | some t =>
      cases w with
      | none => simp [blockcreator.New]
      | some x => simp at h

end

theorem blockcreator_New_fails_fast_witness :
    (blockcreator.New (blockcreator.desyncWorld none) (some ()) (none : Option Unit)
      (some ()) "dir").b = none ∧
    (blockcreator.New (blockcreator.desyncWorld none) (some ()) (none : Option Unit)
      (some ()) "dir").err ≠ none ∧
    (blockcreator.New (blockcreator.desyncWorld none) (some ()) (none : Option Unit)
      (some ()) "dir").trace = [] :=
  blockcreator_New_fails_fast (blockcreator.desyncWorld none) (some ()) none (some ()) "dir"
    (Or.inr (Or.inl rfl))

section
variable {CS TP WL : Type}

/-- C12: when the first `ConsensusSetSubscribe` of `New` returns
`ErrInvalidConsensusChangeID`, the calls made are: the reset state
(`RecentChange = ConsensusChangeBeginning`, `Height = 0`, zero `Target`) is
saved under the lock; if that save succeeds the next call is the
re-subscription, from `ConsensusChangeBeginning` and with `b.persist` equal to
the reset state, and no later call subscribes to the consensus set again; if
that save fails no re-subscription is made and `New` returns `nil` and an error. -/
theorem blockcreator_New_rescan (W : blockcreator.World) (cs : CS) (tpool : TP) (w : WL)
    (persistDir : String) (p0 p1 : blockcreator.persistence)
    (hinit : W.initPersist = .ok p0)
    (hsub : W.subscribe p0 = (some .ErrInvalidConsensusChangeID, p1)) :
    (W.rescanSave = none →
      ∃ rest, (blockcreator.New W (some cs) (some tpool) (some w) persistDir).trace =
        [.initPersist true, .consensusSetSubscribe p0.RecentChange p0,
         .muLock, .logPrintln "Performing a block creator rescan.",
         .save ⟨ConsensusChangeBeginning, 0, Target.zero⟩ true, .muUnlock,
         .consensusSetSubscribe ConsensusChangeBeginning
           ⟨ConsensusChangeBeginning, 0, Target.zero⟩] ++ rest ∧
        ∀ c q, blockcreator.Event.consensusSetSubscribe c q ∉ rest) ∧
    (∀ e, W.rescanSave = some e →
      (blockcreator.New W (some cs) (some tpool) (some w) persistDir).trace =
        [.initPersist true, .consensusSetSubscribe p0.RecentChange p0,
         .muLock, .logPrintln "Performing a block creator rescan.",
         .save ⟨ConsensusChangeBeginning, 0, Target.zero⟩ false, .muUnlock] ∧
      (blockcreator.New W (some cs) (some tpool) (some w) persistDir).b = none ∧
      (blockcreator.New W (some cs) (some tpool) (some w) persistDir).err =
        some ("block creator startup failed - rescanning failed: " ++ e)) := by
  constructor
  · intro hs
    rcases hr : W.rescanSubscribe ⟨ConsensusChangeBeginning, 0, Target.zero⟩ with ⟨e2, p2⟩
    cases e2 with
    | some e2 =>
      refine ⟨[], ?_, by simp⟩
      simp [blockcreator.New, blockcreator.startupRescan, hinit, hsub, hs, hr]
    | none =>
      cases hsv : W.save with
      | some e3 =>
        refine ⟨[.onStopCsUnsubscribe, .onStopCsUnsubscribe, .transactionPoolSubscribe,
          .onStopTpoolUnsubscribe, .save p2 false], ?_, by simp⟩
        simp [blockcreator.New, blockcreator.startupRescan, blockcreator.New.finish,
          hinit, hsub, hs, hr, hsv]
      | none =>
        refine ⟨[.onStopCsUnsubscribe, .onStopCsUnsubscribe, .transactionPoolSubscribe,
          .onStopTpoolUnsubscribe, .save p2 true], ?_, by simp⟩
        simp [blockcreator.New, blockcreator.startupRescan, blockcreator.New.finish,
          hinit, hsub, hs, hr, hsv]
  · intro e hs
    simp [blockcreator.New, blockcreator.startupRescan, hinit, hsub, hs]

end

theorem blockcreator_New_rescan_witness :
    (∃ rest, (blockcreator.New (blockcreator.desyncWorld none) (some ()) (some ()) (some ())
        "dir").trace =
        [.initPersist true, .consensusSetSubscribe 5 ⟨5, 9, ⟨3⟩⟩,
         .muLock, .logPrintln "Performing a block creator rescan.",
         .save ⟨ConsensusChangeBeginning, 0, Target.zero⟩ true, .muUnlock,
         .consensusSetSubscribe ConsensusChangeBeginning
           ⟨ConsensusChangeBeginning, 0, Target.zero⟩] ++ rest ∧
        ∀ c q, blockcreator.Event.consensusSetSubscribe c q ∉ rest) ∧
    ((blockcreator.New (blockcreator.desyncWorld (some "disk full")) (some ()) (some ())
        (some ()) "dir").trace =
        [.initPersist true, .consensusSetSubscribe 5 ⟨5, 9, ⟨3⟩⟩,
         .muLock, .logPrintln "Performing a block creator rescan.",
         .save ⟨ConsensusChangeBeginning, 0, Target.zero⟩ false, .muUnlock] ∧
      (blockcreator.New (blockcreator.desyncWorld (some "disk full")) (some ()) (some ())
        (some ()) "dir").b = none ∧
      (blockcreator.New (blockcreator.desyncWorld (some "disk full")) (some ()) (some ())
        (some ()) "dir").err =
        some ("block creator startup failed - rescanning failed: " ++ "disk full")) :=
  ⟨(blockcreator_New_rescan (blockcreator.desyncWorld none) () () () "dir" ⟨5, 9, ⟨3⟩⟩
      ⟨5, 9, ⟨3⟩⟩ rfl rfl).1 rfl,
   (blockcreator_New_rescan (blockcreator.desyncWorld (some "disk full")) () () () "dir"
      ⟨5, 9, ⟨3⟩⟩ ⟨5, 9, ⟨3⟩⟩ rfl rfl).2 "disk full" rfl⟩

section
variable {CS TP WL : Type}

/-- C13: in `Close`, whenever the synchronous save is attempted the log is
closed after it, whatever the save returned; and once the thread group has
stopped the returned error is both messages joined when save and log-close
fail, the message of the one that failed when one fails, and `nil` when both
succeed. -/
theorem blockcreator_Close_save_and_log (W : blockcreator.CloseWorld)
    (b : blockcreator.BlockCreator CS TP WL) :
    (∀ p ok, blockcreator.Event.saveSync p ok ∈ (b.Close W).2 →
      ∃ pre post, (b.Close W).2 =
        pre ++ [.saveSync p ok, .logClose W.logClose.isNone] ++ post) ∧
    (W.tgStop = none →
      (∀ e1 e2, W.saveSync = some e1 → W.logClose = some e2 →
        (b.Close W).1 = some ("save failed: " ++ e1 ++ "; " ++ ("log.Close failed: " ++ e2))) ∧
      (∀ e1, W.saveSync = some e1 → W.logClose = none →
        (b.Close W).1 = some ("save failed: " ++ e1)) ∧
      (∀ e2, W.saveSync = none → W.logClose = some e2 →
        (b.Close W).1 = some ("log.Close failed: " ++ e2)) ∧
      (W.saveSync = none → W.logClose = none → (b.Close W).1 = none)) := by
  constructor
  · intro p ok hmem
    cases hst : W.tgStop with
    | some e => simp [blockcreator.BlockCreator.Close, hst] at hmem
    | none =>
      simp only [blockcreator.BlockCreator.Close, hst, List.mem_append, List.mem_cons,
        List.mem_singleton, List.not_mem_nil, or_false, reduceCtorEq, false_or,
        blockcreator.Event.saveSync.injEq] at hmem
      obtain ⟨hp, hok⟩ := hmem
      subst hp hok
      exact ⟨[.tgStop true, .muLock, .csUnsubscribe], [.muUnlock], by
        simp [blockcreator.BlockCreator.Close, hst]⟩
  · intro hst
    refine ⟨?_, ?_, ?_, ?_⟩
    · intro e1 e2 h1 h2
      simp [blockcreator.BlockCreator.Close, hst, h1, h2, build.JoinErrors]
    · intro e1 h1 h2
      simp [blockcreator.BlockCreator.Close, hst, h1, h2, build.JoinErrors]
    · intro e2 h1 h2
      simp [blockcreator.BlockCreator.Close, hst, h1, h2, build.JoinErrors]
    · intro h1 h2
      simp [blockcreator.BlockCreator.Close, hst, h1, h2, build.JoinErrors]

end

theorem blockcreator_Close_save_and_log_witness :
    (∃ pre post, (blockcreator.sample.Close ⟨none, some "disk full", some "bad fd"⟩).2 =
      pre ++ [.saveSync ⟨5, 9, ⟨3⟩⟩ false, .logClose false] ++ post) ∧
    (blockcreator.sample.Close ⟨none, some "disk full", some "bad fd"⟩).1 =
      some ("save failed: " ++ "disk full" ++ "; " ++ ("log.Close failed: " ++ "bad fd")) :=
  ⟨(blockcreator_Close_save_and_log ⟨none, some "disk full", some "bad fd"⟩
      blockcreator.sample).1 ⟨5, 9, ⟨3⟩⟩ false (by decide),
   ((blockcreator_Close_save_and_log ⟨none, some "disk full", some "bad fd"⟩
      blockcreator.sample).2 rfl).1 "disk full" "bad fd" rfl rfl⟩

/-- C14 as stated fails: when stopping the background activity fails, `Close`
returns that error at once and attempts none of the later steps (no
unsubscription, no save, no log close). -/
theorem blockcreator_Close_stops_at_failed_stop :
    blockcreator.sample.Close ⟨some "thread group already stopped", none, none⟩ =
      (some "thread group already stopped", [.tgStop false]) ∧
    blockcreator.Event.csUnsubscribe ∉
      (blockcreator.sample.Close ⟨some "thread group already stopped", none, none⟩).2 ∧
    (∀ p ok, blockcreator.Event.saveSync p ok ∉
      (blockcreator.sample.Close ⟨some "thread group already stopped", none, none⟩).2) ∧
    (∀ ok, blockcreator.Event.logClose ok ∉
      (blockcreator.sample.Close ⟨some "thread group already stopped", none, none⟩).2) := by
  refine ⟨rfl, ?_, ?_, ?_⟩
  · simp [blockcreator.BlockCreator.Close]
  · simp [blockcreator.BlockCreator.Close]
  · simp [blockcreator.BlockCreator.Close]

section
variable {CS TP WL : Type}

/-- C14, amended: when stopping the background activity fails, `Close` returns
that error at once and attempts no later step; when it succeeds,
unsubscribing, the synchronous save and closing the log are all attempted, in
this order and whatever the earlier ones returned, and the returned error joins
every failure among save and log close. -/
theorem blockcreator_Close_aggregates (W : blockcreator.CloseWorld)
    (b : blockcreator.BlockCreator CS TP WL) :
    (∀ e, W.tgStop = some e → b.Close W = (some e, [.tgStop false])) ∧
    (W.tgStop = none →
      (b.Close W).2 =
        [.tgStop true, .muLock, .csUnsubscribe, .saveSync b.persist W.saveSync.isNone,
         .logClose W.logClose.isNone, .muUnlock] ∧
      (b.Close W).1 = build.JoinErrors
        ((W.saveSync.map fun e => "save failed: " ++ e).toList ++
         (W.logClose.map fun e => "log.Close failed: " ++ e).toList) "; ") := by
  constructor
  · intro e he
    simp [blockcreator.BlockCreator.Close, he]
  · intro hst
    cases h1 : W.saveSync <;> cases h2 : W.logClose <;>
      simp [blockcreator.BlockCreator.Close, hst, h1, h2]

/-- C16: in every execution of `Close` that attempts the synchronous save, the
calls made are exactly: stop the thread group (successfully), take the lock,
unsubscribe from the consensus set, save, close the log, release the lock; so
the stop comes first, the unsubscription before the save and the save before
the log close. -/
theorem blockcreator_Close_order (W : blockcreator.CloseWorld)
    (b : blockcreator.BlockCreator CS TP WL) (p : blockcreator.persistence) (ok : Bool)
    (h : blockcreator.Event.saveSync p ok ∈ (b.Close W).2) :
    (b.Close W).2 =
      [.tgStop true, .muLock, .csUnsubscribe, .saveSync p ok,
       .logClose W.logClose.isNone, .muUnlock] ∧
    (b.Close W).2.indexOf (.tgStop true) = 0 ∧
    (b.Close W).2.indexOf .csUnsubscribe < (b.Close W).2.indexOf (.saveSync p ok) ∧
    (b.Close W).2.indexOf (.saveSync p ok) <
      (b.Close W).2.indexOf (.logClose W.logClose.isNone) := by
  cases hst : W.tgStop with
  | some e => simp [blockcreator.BlockCreator.Close, hst] at h
  | none =>
    simp only [blockcreator.BlockCreator.Close, hst, List.mem_append, List.mem_cons,
      List.mem_singleton, List.not_mem_nil, or_false, reduceCtorEq, false_or,
      blockcreator.Event.saveSync.injEq] at h
    obtain ⟨hp, hok⟩ := h
    subst hp hok
    have htr : (b.Close W).2 =
        [.tgStop true, .muLock, .csUnsubscribe, .saveSync b.persist W.saveSync.isNone,
         .logClose W.logClose.isNone, .muUnlock] := by
      simp [blockcreator.BlockCreator.Close, hst]
    rw [htr]
    refine ⟨rfl, ?_, ?_, ?_⟩
    · simp [List.indexOf_cons]
    · simp [List.indexOf_cons]
    · simp [List.indexOf_cons]

end

theorem blockcreator_Close_order_witness :
    (blockcreator.sample.Close ⟨none, some "disk full", none⟩).2 =
      [.tgStop true, .muLock, .csUnsubscribe, .saveSync ⟨5, 9, ⟨3⟩⟩ false,
       .logClose true, .muUnlock] :=
  (blockcreator_Close_order ⟨none, some "disk full", none⟩ blockcreator.sample
    ⟨5, 9, ⟨3⟩⟩ false (by decide)).1

theorem blockcreator_Close_aggregates_witness :
    blockcreator.sample.Close ⟨some "stopped", some "disk full", none⟩ =
      (some "stopped", [.tgStop false]) :=
  (blockcreator_Close_aggregates ⟨some "stopped", some "disk full", none⟩
    blockcreator.sample).1 "stopped" rfl

/-! ## Explorer: the claims -/

/-- C17, evaluated where it fails: when the consensus set does not recognize the
explorer's persisted cursor (`ErrInvalidConsensusChangeID`), although a
subscription from the beginning would succeed, `explorer.New` subscribes once,
with the stale cursor, never from `ConsensusChangeBeginning`, and returns `nil`
with the error "explorer subscription failed: ...". -/
theorem explorer_New_no_rescan :
    explorer.desyncWorld.subscribe 5 = some .ErrInvalidConsensusChangeID ∧
    explorer.desyncWorld.subscribe ConsensusChangeBeginning = none ∧
    (explorer.New explorer.desyncWorld (some ()) "dir" () ()).e = none ∧
    (explorer.New explorer.desyncWorld (some ()) "dir" () ()).err =
      some "explorer subscription failed: invalid consensus change id" ∧
    (explorer.New explorer.desyncWorld (some ()) "dir" () ()).trace =
      [.initPersist true, .dbView true, .consensusSetSubscribe 5] ∧
    explorer.Event.consensusSetSubscribe ConsensusChangeBeginning ∉
      (explorer.New explorer.desyncWorld (some ()) "dir" () ()).trace := by
  refine ⟨rfl, rfl, rfl, ?_, rfl, ?_⟩
  · decide
  · decide

/-- C18, evaluated where it fails: `Explorer.Close` only closes the database;
the consensus set's `Unsubscribe` is not called. -/
theorem explorer_Close_no_unsubscribe :
    (explorer.sample.Close explorer.desyncWorld).2 = [.dbClose true] ∧
    explorer.Event.csUnsubscribe ∉ (explorer.sample.Close explorer.desyncWorld).2 := by
  decide

section
variable {CS BI CC : Type}

/-- In every world, `Explorer.Close` makes the single call `db.Close()`. -/
theorem explorer_Close_trace (W : explorer.World) (e : explorer.Explorer CS BI CC) :
    (e.Close W).2 = [.dbClose W.dbClose.isNone] ∧ (e.Close W).1 = W.dbClose :=
  ⟨rfl, rfl⟩

/-- In every world, an error of the subscription makes `explorer.New` fail,
the sentinel `ErrInvalidConsensusChangeID` included. -/
theorem explorer_New_subscribe_error (W : explorer.World) (cs : CS) (persistDir : String)
    (bcInfo : BI) (chainCts : CC) (rc : ConsensusChangeID) (err : SubscribeError)
    (h1 : W.initPersist = none) (h2 : W.dbView = .ok rc) (h3 : W.subscribe rc = some err) :
    explorer.New W (some cs) persistDir bcInfo chainCts =
      ⟨none, some ("explorer subscription failed: " ++ err.Error W.errInvalidText),
       [.initPersist true, .dbView true, .consensusSetSubscribe rc]⟩ := by
  simp [explorer.New, h1, h2, h3]

end

/-! ## Wallet commands: the claims -/

/-- What `walletregisterdatacmd` posts for every three arguments taken in the
order of its parameters: the destination is the second one and the data the
base64 of the first followed by the third. -/
theorem client_walletregisterdatacmd_posts (postErr : Option String) (a1 a2 a3 : String) :
    (client.walletregisterdatacmd postErr a1 a2 a3).posts =
      [⟨"/wallet/data", "destination=" ++ a2 ++ "&data=" ++
        client.base64EncodeToString (client.bytesOf (a1 ++ a3))⟩] := by
  cases postErr <;> rfl

/-- C19, evaluated where it fails: for the command line
`registerdata ns hello addr` (namespace `ns`, data `hello`, destination `addr`)
the function, which takes its parameters as (namespace, dest, data), posts
destination `hello` and the base64 of `nsaddr`, not destination `addr` and the
base64 of `nshello`. -/
theorem client_registerdata_swaps_data_and_dest :
    client.walletRegisterDataCmd.Use = "registerdata <namespace> <data> <dest>" ∧
    (client.walletregisterdatacmd none "ns" "hello" "addr").posts =
      [⟨"/wallet/data", "destination=hello&data=bnNhZGRy"⟩] ∧
    client.base64EncodeToString (client.bytesOf "nsaddr") = "bnNhZGRy" ∧
    client.base64EncodeToString (client.bytesOf "nshello") = "bnNoZWxsbw==" ∧
    (client.walletregisterdatacmd none "ns" "hello" "addr").posts ≠
      [⟨"/wallet/data", "destination=addr&data=bnNoZWxsbw=="⟩] := by
  decide

section
variable {UH Cond : Type}

theorem client_specPair_of_hash (P : client.Parsers UH Cond) (args : List String) (k : Nat)
    (v : Currency) (uh : UH) (hv : P.ParseCoinString (args.getD (2 * k + 1) "") = .ok v)
    (hu : P.LoadString (args.getD (2 * k) "") = .ok uh) :
    client.specPair P args k = some ⟨P.NewUnlockHashCondition uh, v⟩ := by
  simp only [client.specPair, client.specCondition, hv, hu]

theorem client_specPair_of_json (P : client.Parsers UH Cond) (args : List String) (k : Nat)
    (v : Currency) (e : String) (c : Cond)
    (hv : P.ParseCoinString (args.getD (2 * k + 1) "") = .ok v)
    (hu : P.LoadString (args.getD (2 * k) "") = .error e)
    (hc : P.UnmarshalJSON (args.getD (2 * k) "") = .ok c) :
    client.specPair P args k = some ⟨c, v⟩ := by
  simp only [client.specPair, client.specCondition, hv, hu, hc]

/-- The loop, started at pair `k` with `m` pairs to go and enough iterations
allowed, returns; it returns no error exactly when each remaining pair parses,
and then the pairs collected are the ones given followed by the remaining ones. -/
theorem client_loop_spec (P : client.Parsers UH Cond) (args : List String) :
    ∀ (m k fuel : Nat) (pairs : List (client.outputPair Cond)),
      args.length = 2 * (k + m) → m < fuel →
      ∃ out err, client.parsePairedOutputs.loop P args args.length fuel (2 * k) pairs =
          some (out, err) ∧
        (err = none ↔ ∀ j, k ≤ j → j < k + m → ∃ p, client.specPair P args j = some p) ∧
        (err = none →
          out.map some = pairs.map some ++ (List.range' k m).map (client.specPair P args)) := by
  intro m
  induction m with
  | zero =>
    intro k fuel pairs hlen hfuel
    obtain ⟨f, rfl⟩ : ∃ f, fuel = f + 1 := ⟨fuel - 1, by omega⟩
    refine ⟨pairs, none, ?_, ?_, ?_⟩
    · rw [client.parsePairedOutputs.loop, if_neg (by omega)]
    · constructor
      · intro _ j h1 h2; omega
      · intro _; rfl
    · intro _; simp
  | succ m ih =>
    intro k fuel pairs hlen hfuel
    obtain ⟨f, rfl⟩ : ∃ f, fuel = f + 1 := ⟨fuel - 1, by omega⟩
    have hlt : 2 * k < args.length := by omega
    have hstep : ∀ (p : client.outputPair Cond), client.specPair P args k = some p →
        ∃ out err, client.parsePairedOutputs.loop P args args.length f (2 * k + 2)
            (pairs ++ [p]) = some (out, err) ∧
          (err = none ↔
            ∀ j, k ≤ j → j < k + (m + 1) → ∃ q, client.specPair P args j = some q) ∧
          (err = none → out.map some =
            pairs.map some ++ (List.range' k (m + 1)).map (client.specPair P args)) := by
      intro p hp
      obtain ⟨out, err, h1, h2, h3⟩ := ih (k + 1) f (pairs ++ [p]) (by omega) (by omega)
      refine ⟨out, err, h1, ?_, ?_⟩
      · rw [h2]
        constructor
        · intro h j hj1 hj2
          by_cases hjk : j = k
          · subst hjk; exact ⟨p, hp⟩
          · exact h j (by omega) (by omega)
        · intro h j hj1 hj2
          exact h j (by omega) (by omega)
      · intro he
        rw [h3 he, List.range'_succ, List.map_cons, hp]
        simp
    have hfail : ∀ (e : String), client.specPair P args k = none →
        ∃ out err, (some (pairs, some e) : Option (List (client.outputPair Cond) ×
            Option String)) = some (out, err) ∧
          (err = none ↔
            ∀ j, k ≤ j → j < k + (m + 1) → ∃ q, client.specPair P args j = some q) ∧
          (err = none → out.map some =
            pairs.map some ++ (List.range' k (m + 1)).map (client.specPair P args)) := by
      intro e hn
      refine ⟨pairs, some e, rfl, ?_, ?_⟩
      · constructor
        · intro h; cases h
        · intro h
          obtain ⟨q, hq⟩ := h k (Nat.le_refl k) (by omega)
          rw [hn] at hq
          cases hq
      · intro h; cases h
    rw [client.parsePairedOutputs.loop, if_pos hlt]
    cases hv : P.ParseCoinString (args.getD (2 * k + 1) "") with
    | error e =>
      exact hfail _ (by simp only [client.specPair, hv])
    | ok v =>
      cases hu : P.LoadString (args.getD (2 * k) "") with
      | ok uh =>
        exact hstep _ (client_specPair_of_hash P args k v uh hv hu)
      | error e =>
        cases hc : P.UnmarshalJSON (args.getD (2 * k) "") with
        | error e2 =>
          exact hfail _ (by simp only [client.specPair, client.specCondition, hv, hu, hc])
        | ok c =>
          exact hstep _ (client_specPair_of_json P args k v e c hv hu hc)

/-- An argument has a condition exactly when it parses as an unlock hash or as
a JSON-encoded unlock condition. -/
theorem client_specCondition_isSome (P : client.Parsers UH Cond) (a : String) :
    (∃ c, client.specCondition P a = some c) ↔
      ((∃ uh, P.LoadString a = .ok uh) ∨ (∃ c, P.UnmarshalJSON a = .ok c)) := by
  unfold client.specCondition
  cases hu : P.LoadString a with
  | ok uh => simp
  | error e =>
    cases hc : P.UnmarshalJSON a with
    | ok c => simp
    | error e2 => simp

/-- The `k`-th pair exists exactly when the amount parses and the destination
has a condition, and then it holds both. -/
theorem client_specPair_eq_some (P : client.Parsers UH Cond) (args : List String) (k : Nat)
    (p : client.outputPair Cond) :
    client.specPair P args k = some p ↔
      ∃ v c, P.ParseCoinString (args.getD (2 * k + 1) "") = .ok v ∧
        client.specCondition P (args.getD (2 * k) "") = some c ∧ p = ⟨c, v⟩ := by
  unfold client.specPair
  cases hv : P.ParseCoinString (args.getD (2 * k + 1) "") with
  | error e => simp
  | ok v =>
    cases hc : client.specCondition P (args.getD (2 * k) "") with
    | none => simp
    | some c =>
      simp only [Option.some.injEq, Except.ok.injEq]
      constructor
      · intro h; exact ⟨v, c, rfl, rfl, h.symm⟩
      · rintro ⟨v2, c2, h1, h2, h3⟩
        rw [h3, ← h1, ← h2]

/-- C20: `parsePairedOutputs` returns for every argument list; with fewer than 2
arguments or an odd number of them it returns an error; with an even number
`n ≥ 2` it returns no error if and only if for every `k < n/2` the argument
`2k+1` parses as a coin amount and the argument `2k` parses as an unlock hash or
as a JSON-encoded unlock condition, and then it returns exactly `n/2` pairs, the
`k`-th holding the value of argument `2k+1` and the condition of argument `2k`. -/
theorem client_parsePairedOutputs_spec (P : client.Parsers UH Cond) (args : List String) :
    ∃ pairs err, client.parsePairedOutputs P args = some (pairs, err) ∧
      ((args.length < 2 ∨ args.length % 2 = 1) → err ≠ none) ∧
      (2 ≤ args.length → args.length % 2 = 0 →
        (err = none ↔ ∀ k, k < args.length / 2 →
          (∃ v, P.ParseCoinString (args.getD (2 * k + 1) "") = .ok v) ∧
          ((∃ uh, P.LoadString (args.getD (2 * k) "") = .ok uh) ∨
            (∃ c, P.UnmarshalJSON (args.getD (2 * k) "") = .ok c))) ∧
        (err = none → pairs.length = args.length / 2 ∧
          ∀ k, k < args.length / 2 →
            ∃ v c, P.ParseCoinString (args.getD (2 * k + 1) "") = .ok v ∧
              client.specCondition P (args.getD (2 * k) "") = some c ∧
              pairs[k]? = some ⟨c, v⟩)) := by
  by_cases hlt : args.length < 2
  · refine ⟨[], some "not enough arguments, at least 2 required", ?_, by simp, ?_⟩
    · simp [client.parsePairedOutputs, hlt]
    · intro h; omega
  · by_cases hodd : args.length % 2 ≠ 0
    · refine ⟨[], some
        "arguments have to be given in pairs of '<dest>|<rawCondition>'+'<value>'",
        ?_, by simp, ?_⟩
      · simp only [client.parsePairedOutputs, if_neg hlt, if_pos hodd]
      · intro _ h; omega
    · obtain ⟨out, err, h1, h2, h3⟩ := client_loop_spec P args (args.length / 2) 0
        (args.length + 1) [] (by omega) (by omega)
      rw [Nat.mul_zero] at h1
      refine ⟨out, err, ?_, ?_, ?_⟩
      · simp only [client.parsePairedOutputs, if_neg hlt, if_neg hodd]
        exact h1
      · intro h; omega
      · intro _ _
        constructor
        · rw [h2]
          constructor
          · intro h k hk
            obtain ⟨p, hp⟩ := h k (Nat.zero_le k) (by omega)
            obtain ⟨v, c, hv, hc, _⟩ := (client_specPair_eq_some P args k p).1 hp
            exact ⟨⟨v, hv⟩, (client_specCondition_isSome P _).1 ⟨c, hc⟩⟩
          · intro h j _ hj
            obtain ⟨⟨v, hv⟩, hcond⟩ := h j (by omega)
            obtain ⟨c, hc⟩ := (client_specCondition_isSome P _).2 hcond
            exact ⟨⟨c, v⟩, (client_specPair_eq_some P args j _).2 ⟨v, c, hv, hc, rfl⟩⟩
        · intro he
          have hmap := h3 he
          simp only [List.map_nil, List.nil_append] at hmap
          have hlen : out.length = args.length / 2 := by
            have := congrArg List.length hmap
            simpa using this
          refine ⟨hlen, ?_⟩
          intro k hk
          have hk2 := congrArg (fun l => l[k]?) hmap
          simp only [List.getElem?_map] at hk2
          have hr : (List.range' 0 (args.length / 2))[k]? = some k := by
            rw [List.getElem?_range' _ _ hk]; simp
          have hklt : k < out.length := by omega
          have ho : out[k]? = some out[k] := List.getElem?_eq_getElem hklt
          rw [hr, ho] at hk2
          simp only [Option.map_some', Option.some.injEq] at hk2
          obtain ⟨v, c, hv, hc, hp⟩ := (client_specPair_eq_some P args k _).1 hk2.symm
          exact ⟨v, c, hv, hc, by rw [ho, hp]⟩

end

/-- The sample parsers on two pairs: an unlock hash with amount 5 and a JSON
condition with amount 7. -/
theorem client_parsePairedOutputs_example :
    client.parsePairedOutputs client.sampleParsers ["01ab", "5", "\x7bx\x7d", "7"] =
      some ([⟨"hash:01ab", ⟨5⟩⟩, ⟨"\x7bx\x7d", ⟨7⟩⟩], none) ∧
    client.parsePairedOutputs client.sampleParsers ["01ab", "5", "x", "7"] =
      some ([⟨"hash:01ab", ⟨5⟩⟩], some
        "condition has to be UnlockHash or JSON-encoded UnlockCondition, output #1's was neither") :=
  ⟨rfl, rfl⟩

theorem client_parsePairedOutputs_spec_witness :
    ∃ pairs err, client.parsePairedOutputs client.sampleParsers ["01ab", "5"] =
        some (pairs, err) ∧
      (((["01ab", "5"] : List String).length < 2 ∨
        (["01ab", "5"] : List String).length % 2 = 1) → err ≠ none) ∧
      (2 ≤ (["01ab", "5"] : List String).length →
        (["01ab", "5"] : List String).length % 2 = 0 →
        (err = none ↔ ∀ k, k < (["01ab", "5"] : List String).length / 2 →
          (∃ v, client.sampleParsers.ParseCoinString
            ((["01ab", "5"] : List String).getD (2 * k + 1) "") = .ok v) ∧
          ((∃ uh, client.sampleParsers.LoadString
              ((["01ab", "5"] : List String).getD (2 * k) "") = .ok uh) ∨
            (∃ c, client.sampleParsers.UnmarshalJSON
              ((["01ab", "5"] : List String).getD (2 * k) "") = .ok c))) ∧
        (err = none → pairs.length = (["01ab", "5"] : List String).length / 2 ∧
          ∀ k, k < (["01ab", "5"] : List String).length / 2 →
            ∃ v c, client.sampleParsers.ParseCoinString
                ((["01ab", "5"] : List String).getD (2 * k + 1) "") = .ok v ∧
              client.specCondition client.sampleParsers
                ((["01ab", "5"] : List String).getD (2 * k) "") = some c ∧
              pairs[k]? = some ⟨c, v⟩)) :=
  client_parsePairedOutputs_spec client.sampleParsers ["01ab", "5"]

/-! ## Every `uint64` is a well-formed short ID -/

/-- C21: for every `uint64` value `x` taken as a `TransactionShortID`, its block
height is below `2^50` and its sequence index below `2^14`, so that
`NewTransactionShortID` applied to the two does not panic, and it returns `x`. -/
theorem shortID_decompose_recompose (x : Nat) (hx : x < 2 ^ 64) :
    TransactionShortID.BlockHeight x < 2 ^ 50 ∧
    TransactionShortID.TransactionSequenceIndex x < 2 ^ 14 ∧
    NewTransactionShortID (TransactionShortID.BlockHeight x)
      (TransactionShortID.TransactionSequenceIndex x) = .ok x := by
  have hb : TransactionShortID.BlockHeight x = x / 2 ^ 14 := by
    simp only [TransactionShortID.BlockHeight, txShortIDBlockHeightShift,
      Nat.shiftRight_eq_div_pow]
  have hs : TransactionShortID.TransactionSequenceIndex x = x % 2 ^ 14 := by
    simp only [TransactionShortID.TransactionSequenceIndex, and_txSeqIndexMaxMask, u16]
    omega
  have hb50 : x / 2 ^ 14 < 2 ^ 50 := by omega
  have hs14 : x % 2 ^ 14 < 2 ^ 14 := by omega
  have hre : x / 2 ^ 14 * 2 ^ 14 + x % 2 ^ 14 = x := by omega
  rw [hb, hs]
  refine ⟨hb50, hs14, ?_⟩
  rw [NewTransactionShortID_ok _ _ hb50 hs14, hre]

theorem shortID_decompose_recompose_witness :
    TransactionShortID.BlockHeight (2 ^ 64 - 1) < 2 ^ 50 ∧
    TransactionShortID.TransactionSequenceIndex (2 ^ 64 - 1) < 2 ^ 14 ∧
    NewTransactionShortID (TransactionShortID.BlockHeight (2 ^ 64 - 1))
      (TransactionShortID.TransactionSequenceIndex (2 ^ 64 - 1)) = .ok (2 ^ 64 - 1) :=
  shortID_decompose_recompose (2 ^ 64 - 1) (by decide)

end Rivine
